import Mathlib

/-!
# Verification of the opengrammer text-analysis core

Shallow embedding of the repository's grammar/style/rewrite/tone engines
(`grammarEngine` in `src/unnamed/part_004`, the style service and nlp service
in `src/src/suggestionService.ts`, and the synonym scoring strategies in
`src/src/synonymContext.ts`).

JavaScript strings are modelled as `List Char`; JS numbers used as indices are
modelled as `Int` (so that the `-1` sentinel of `indexOf` is representable) or
`Nat` where the code guarantees non-negativity; fractional scores are modelled
as `ℚ`.  Regex matching of the concrete rule patterns is hand-translated into
first-match-index functions; the external `compromise` NLP adapter and the JS
`RegExp` compiler are modelled as explicit parameters where their output feeds
the code under proof.
-/

set_option linter.unusedVariables false

namespace OpenGrammer

/-! ## JS string primitives over `List Char` -/

/-- ASCII view of the JS `\w` character class: `[A-Za-z0-9_]`. -/
def isWordChar (c : Char) : Bool :=
  (('a' ≤ c && c ≤ 'z') || ('A' ≤ c && c ≤ 'Z') || ('0' ≤ c && c ≤ '9') || c == '_')

/-- ASCII view of the JS `\s` character class. -/
def isWS (c : Char) : Bool :=
  c == ' ' || c == '\t' || c == '\n' || c == '\r' ||
  c == Char.ofNat 11 || c == Char.ofNat 12

def isUpperAZ (c : Char) : Bool := 'A' ≤ c && c ≤ 'Z'

def isLowerAZ (c : Char) : Bool := 'a' ≤ c && c ≤ 'z'

def isAsciiLetter (c : Char) : Bool := isUpperAZ c || isLowerAZ c

/-- ASCII `toLowerCase` on a character (identity outside `A-Z`). -/
def lowerChar (c : Char) : Char :=
  if isUpperAZ c then Char.ofNat (c.toNat + 32) else c

/-- ASCII `toUpperCase` on a character (identity outside `a-z`). -/
def upperChar (c : Char) : Char :=
  if isLowerAZ c then Char.ofNat (c.toNat - 32) else c

/-- JS `String.prototype.toLowerCase` (ASCII fragment). -/
def lower (s : List Char) : List Char := s.map lowerChar

/-- JS `String.prototype.toUpperCase` (ASCII fragment). -/
def upper (s : List Char) : List Char := s.map upperChar

/-- Coercion from Lean string literals to the JS string model. -/
def str (s : String) : List Char := s.toList

/-- The apostrophe character, kept out of string literals. -/
def apos : Char := Char.ofNat 39

/-- JS `String.prototype.trim` (ASCII whitespace fragment). -/
def jsTrim (s : List Char) : List Char :=
  ((s.dropWhile isWS).reverse.dropWhile isWS).reverse

/-- Does `pat` occur at position `p` of `s`?  (Case-sensitive.) -/
def prefixAt (pat s : List Char) (p : Nat) : Bool :=
  (s.drop p).take pat.length == pat

/-- First index `i` with `start ≤ i < start + fuel` satisfying `p`. -/
def findFrom (p : Nat → Bool) : Nat → Nat → Option Nat
  | _, 0 => none
  | i, fuel + 1 => if p i then some i else findFrom p (i + 1) fuel

/-- JS `String.prototype.indexOf(pat, from)`: `-1` when absent, the clamped
`from` position when `pat` is empty. -/
def jsIndexOfFrom (s pat : List Char) (i : Int) : Int :=
  let start : Nat := min (max i 0).toNat s.length
  match findFrom (fun p => prefixAt pat s p) start (s.length + 1 - start) with
  | some p => (p : Int)
  | none => -1

/-- JS `String.prototype.indexOf(pat)`. -/
def jsIndexOf (s pat : List Char) : Int := jsIndexOfFrom s pat 0

/-- JS `String.prototype.includes(pat)`. -/
def jsIncludes (s pat : List Char) : Bool := decide (0 ≤ jsIndexOf s pat)

/-- JS `s.split(sep)` where `sep` is a regex matching maximal runs of
characters satisfying `isSep`: empty leading/trailing pieces are kept, exactly
as in JS (`" a ".split(/\s+/) = ["", "a", ""]`). -/
def jsSplitRuns (isSep : Char → Bool) (s : List Char) : List (List Char) :=
  go [] s (s.length + 1)
where
  /-- The fuel bounds the number of steps; each step consumes at least one
  character, so `s.length + 1` never runs out. -/
  go (acc : List Char) : List Char → Nat → List (List Char)
    | _, 0 => [acc.reverse]
    | [], _ + 1 => [acc.reverse]
    | c :: rest, fuel + 1 =>
      if isSep c then acc.reverse :: go [] (rest.dropWhile isSep) fuel
      else go (c :: acc) rest fuel

/-- JS `s.split(/\s+/)`. -/
def jsSplitWS (s : List Char) : List (List Char) := jsSplitRuns isWS s

/-- JS `s.split(c)` for a single-character string separator. -/
def jsSplitChar (sep : Char) : List Char → List (List Char) :=
  go []
where
  go (acc : List Char) : List Char → List (List Char)
    | [] => [acc.reverse]
    | c :: rest => if c == sep then acc.reverse :: go [] rest else go (c :: acc) rest

/-- JS `s[i]`: the character at index `i`, if present. -/
def charAt (s : List Char) (i : Nat) : Option Char := s.get? i

/-- Case-insensitive match of `w` at position `i` of `s`. -/
def matchCIAt (s : List Char) (i : Nat) (w : List Char) : Bool :=
  ((s.drop i).take w.length).map lowerChar == lower w

/-- JS `\b` to the left of position `i` (for patterns starting with a word
character): the previous character is absent or a non-word character. -/
def boundaryBefore (s : List Char) (i : Nat) : Bool :=
  match charAt s (i - 1) with
  | some c => !isWordChar c || i == 0
  | none => true

/-- JS `\b` to the right of position `j` (for patterns ending in a word
character): the character at `j` is absent or a non-word character. -/
def boundaryAfter (s : List Char) (j : Nat) : Bool :=
  match charAt s j with
  | some c => !isWordChar c
  | none => true

/-- Index of the first non-`isWS` character at or after `i`. -/
def skipWS (s : List Char) (i : Nat) : Nat :=
  i + ((s.drop i).takeWhile isWS).length

/-- Index of the first non-word character at or after `i`. -/
def skipWord (s : List Char) (i : Nat) : Nat :=
  i + ((s.drop i).takeWhile isWordChar).length

/-- The regex `\bw\b` (case-insensitive) matches at position `i`. -/
def wholeWordCIAt (s : List Char) (i : Nat) (w : List Char) : Bool :=
  matchCIAt s i w && boundaryBefore s i && boundaryAfter s (i + w.length)

/-- First-match index of `\bw\b` with flags `i` (as in `RegExp.exec`). -/
def findWholeWordCI (s w : List Char) : Option Nat :=
  findFrom (fun i => wholeWordCIAt s i w) 0 (s.length + 1)

/-- `new RegExp("\\b" + w + "\\b", "gi").test(s)`. -/
def testWholeWordCI (s w : List Char) : Bool := (findWholeWordCI s w).isSome

/-- Number of non-overlapping matches of `\bw\b` with flags `gi`, scanning
left to right (JS `(s.match(regex) || []).length` for a global regex). -/
def countWholeWordCI (s w : List Char) : Nat :=
  if w.isEmpty then 0 else go 0 (s.length + 1)
where
  go : Nat → Nat → Nat
    | _, 0 => 0
    | i, fuel + 1 =>
      if wholeWordCIAt s i w then 1 + go (i + w.length) fuel else go (i + 1) fuel

/-- JS `s.replace(/pat/g, rep)` for a literal, case-sensitive pattern. -/
def replaceAllSub (pat rep s : List Char) : List Char :=
  if pat.isEmpty then s else go 0 (s.length + 1)
where
  go : Nat → Nat → List Char
    | i, 0 => s.drop i
    | i, fuel + 1 =>
      if prefixAt pat s i then rep ++ go (i + pat.length) fuel
      else
        match charAt s i with
        | some c => c :: go (i + 1) fuel
        | none => []

/-- JS `s.replace(/pat/gi, rep)` for a literal, case-insensitive pattern. -/
def replaceAllSubCI (pat rep s : List Char) : List Char :=
  if pat.isEmpty then s else go 0 (s.length + 1)
where
  go : Nat → Nat → List Char
    | i, 0 => s.drop i
    | i, fuel + 1 =>
      if matchCIAt s i pat then rep ++ go (i + pat.length) fuel
      else
        match charAt s i with
        | some c => c :: go (i + 1) fuel
        | none => []

/-- JS `s.replace(new RegExp("\\b" + w + "\\b", "g"), rep)`: case-sensitive
whole-word global replacement. -/
def replaceWholeWordCS (w rep : List Char) (s : List Char) : List Char :=
  if w.isEmpty then s else go 0 (s.length + 1)
where
  go : Nat → Nat → List Char
    | i, 0 => s.drop i
    | i, fuel + 1 =>
      if prefixAt w s i && boundaryBefore s i && boundaryAfter s (i + w.length) then
        rep ++ go (i + w.length) fuel
      else
        match charAt s i with
        | some c => c :: go (i + 1) fuel
        | none => []

def capFirstLowerRest (w : List Char) : List Char :=
  match w with
  | [] => []
  | c :: r => upperChar c :: lower r

def capFirstKeepRest (w : List Char) : List Char :=
  match w with
  | [] => []
  | c :: r => upperChar c :: r

def lowerFirstKeepRest (w : List Char) : List Char :=
  match w with
  | [] => []
  | c :: r => lowerChar c :: r

/-- Replacement string for one whole-word match preserving the matched text's
leading capitalization, as in the callbacks
`match => match[0] === match[0].toUpperCase() ? cap(syn) : syn.toLowerCase()`. -/
def casePreservedSyn (matchedFirst : Char) (syn : List Char) : List Char :=
  if upperChar matchedFirst == matchedFirst then capFirstLowerRest syn else lower syn

/-- JS `s.replace(new RegExp("\\b" + w + "\\b", "gi"), caseCallback)`. -/
def replaceWholeWordCIPreserve (w syn : List Char) (s : List Char) : List Char :=
  if w.isEmpty then s else go 0 (s.length + 1)
where
  go : Nat → Nat → List Char
    | i, 0 => s.drop i
    | i, fuel + 1 =>
      if wholeWordCIAt s i w then
        casePreservedSyn ((charAt s i).getD ' ') syn ++ go (i + w.length) fuel
      else
        match charAt s i with
        | some c => c :: go (i + 1) fuel
        | none => []

/-- JS `Array.prototype.join(" ")`. -/
def joinSpace (xs : List (List Char)) : List Char := List.intercalate [' '] xs

/-- JS `s.endsWith(suffix)`. -/
def endsWithStr (s suffix : List Char) : Bool :=
  suffix.length ≤ s.length && prefixAt suffix s (s.length - suffix.length)

/-! ## Stable descending sort (the JS `sort((a, b) => b.score - a.score)`) -/

/-- Stable insertion into a list sorted descending by `key`. -/
def insertDescBy (key : α → ℚ) (x : α) : List α → List α
  | [] => [x]
  | y :: ys => if key x ≤ key y then y :: insertDescBy key x ys else x :: y :: ys

/-- Stable descending sort by `key`; agrees with JS's stable
`sort((a, b) => key b - key a)`. -/
def sortDescBy (key : α → ℚ) (l : List α) : List α :=
  l.foldr (insertDescBy key) []


/-! ## Grammar rule engine (`checkGrammar` and friends, src/unnamed/part_004) -/

inductive RuleType where
  | spelling
  | punctuation
  | subjectVerbAgreement
  | tenseConsistency
deriving DecidableEq, Repr

structure CheckResult where
  type : RuleType
  message : String
  line : Nat
  column : Nat
  suggestion : Option String
deriving DecidableEq, Repr

def isPunctChar (c : Char) : Bool := c == '.' || c == '!' || c == '?'

/-- First index in `[0, s.length]` satisfying `p` (the scan a JS regex engine
performs to find the leftmost match start). -/
def findFirstIdx (s : List Char) (p : Nat → Bool) : Option Nat :=
  findFrom p 0 (s.length + 1)

/-- Parse `\s+` starting at `j`; returns the index after the run. -/
def wsPlusThen (s : List Char) (j : Nat) : Option Nat :=
  let k := skipWS s j
  if j < k then some k else none

/-- Parse `\w+` starting at `j`; returns the index after the run. -/
def wordPlusThen (s : List Char) (j : Nat) : Option Nat :=
  let k := skipWord s j
  if j < k then some k else none

/-- Parse the literal word `w` case-insensitively at `j`. -/
def wordCIThen (s : List Char) (j : Nat) (w : List Char) : Option Nat :=
  if matchCIAt s j w then some (j + w.length) else none

/-- First-match index of `/^[A-Z][^.!?]*[a-zA-Z]\s*$/`: the line, with trailing
whitespace ignored, starts with an upper-case letter, ends with a letter, and
has no sentence punctuation in between.  An anchored match always starts at 0. -/
def missingPeriodExec (s : List Char) : Option Nat :=
  let t := (s.reverse.dropWhile isWS).reverse
  match t with
  | [] => none
  | c :: rest =>
    if isUpperAZ c && !rest.isEmpty &&
        (match rest.getLast? with
         | some d => isAsciiLetter d
         | none => false) &&
        rest.dropLast.all (fun x => !isPunctChar x) then
      some 0
    else none

/-- First-match index of `/\s{2,}/g`. -/
def doubleSpaceExec (s : List Char) : Option Nat :=
  findFirstIdx s fun i =>
    match charAt s i, charAt s (i + 1) with
    | some a, some b => isWS a && isWS b
    | _, _ => false

/-- First-match index of `/[.!?]{2,}/g`. -/
def doublePunctExec (s : List Char) : Option Nat :=
  findFirstIdx s fun i =>
    match charAt s i, charAt s (i + 1) with
    | some a, some b => isPunctChar a && isPunctChar b
    | _, _ => false

/-- First-match index of `/\s+[.!?]/g`. -/
def spaceBeforePunctExec (s : List Char) : Option Nat :=
  findFirstIdx s fun i =>
    match charAt s i with
    | some a =>
      isWS a &&
        (match charAt s (skipWS s i) with
         | some b => isPunctChar b
         | none => false)
    | none => false

/-- First-match index of `/[.!?](?=[a-zA-Z])/g`. -/
def punctThenLetterExec (s : List Char) : Option Nat :=
  findFirstIdx s fun i =>
    match charAt s i, charAt s (i + 1) with
    | some a, some b => isPunctChar a && isAsciiLetter b
    | _, _ => false

/-- First-match index of `/(?<=[a-zA-Z]),(?=[a-zA-Z])/g` (the comma position). -/
def commaNoSpaceExec (s : List Char) : Option Nat :=
  findFirstIdx s fun i =>
    match charAt s i with
    | some a =>
      a == ',' && 0 < i &&
        (match charAt s (i - 1), charAt s (i + 1) with
         | some b, some c => isAsciiLetter b && isAsciiLetter c
         | _, _ => false)
    | none => false

/-- Parse `\s+` then the word `verb` (case-insensitive) then `\b`, from `j`. -/
def svTail (s : List Char) (verb : List Char) (j : Nat) : Bool :=
  match wsPlusThen s j with
  | none => false
  | some k =>
    match wordCIThen s k verb with
    | none => false
    | some m => boundaryAfter s m

/-- First-match index of `/\b(alt1|...|altN)\s+verb\b/i`. -/
def svExec (alts : List (List Char)) (verb : List Char) (s : List Char) : Option Nat :=
  findFirstIdx s fun i =>
    boundaryBefore s i &&
      alts.any fun alt =>
        match wordCIThen s i alt with
        | none => false
        | some j => svTail s verb j

/-- First-match index of `/\b(the|a|an)\s+\w+\s+are\b/i`. -/
def detNounAreExec (s : List Char) : Option Nat :=
  findFirstIdx s fun i =>
    boundaryBefore s i &&
      [str "the", str "a", str "an"].any fun alt =>
        match wordCIThen s i alt with
        | none => false
        | some j =>
          match wsPlusThen s j with
          | none => false
          | some k =>
            match wordPlusThen s k with
            | none => false
            | some m => svTail s (str "are") m

/-- Does `\band\s+(w ∈ g2)\b` match at position `k`? -/
def andG2At (s : List Char) (g2 : List (List Char)) (k : Nat) : Bool :=
  boundaryBefore s k && matchCIAt s k (str "and") &&
    (match wsPlusThen s (k + 3) with
     | none => false
     | some j => g2.any fun w2 => matchCIAt s j w2 && boundaryAfter s (j + w2.length))

/-- First-match index of `/\b(g1)\b.*\band\s+(g2)\b/i`. -/
def tenseExec (g1 g2 : List (List Char)) (s : List Char) : Option Nat :=
  findFirstIdx s fun i =>
    boundaryBefore s i &&
      g1.any fun w1 =>
        matchCIAt s i w1 && boundaryAfter s (i + w1.length) &&
          (findFrom (fun k => andG2At s g2 k) (i + w1.length)
            (s.length + 1 - (i + w1.length))).isSome

structure GrammarRule where
  type : RuleType
  /-- `pattern.exec(line)` restricted to the first-match index (`match.index`);
  the concrete regexes of `GRAMMAR_RULES` are hand-translated above. -/
  exec : List Char → Option Nat
  message : String
  severity : String

/-- The `GRAMMAR_RULES` table of src/unnamed/part_004, in declaration order. -/
def GRAMMAR_RULES : List GrammarRule := [
  ⟨RuleType.punctuation, missingPeriodExec,
    "Missing period at end of sentence", "error"⟩,
  ⟨RuleType.punctuation, doubleSpaceExec,
    "Multiple consecutive spaces should be single space", "warning"⟩,
  ⟨RuleType.punctuation, doublePunctExec,
    "Multiple consecutive punctuation marks", "warning"⟩,
  ⟨RuleType.punctuation, spaceBeforePunctExec,
    "Space before punctuation mark", "error"⟩,
  ⟨RuleType.punctuation, punctThenLetterExec,
    "Missing space after punctuation mark", "error"⟩,
  ⟨RuleType.punctuation, commaNoSpaceExec,
    "Missing space after comma", "error"⟩,
  ⟨RuleType.subjectVerbAgreement,
    svExec [str "cats", str "dogs", str "birds", str "people", str "children",
      str "women", str "men"] (str "is"),
    "Subject-verb agreement error: plural subject requires \"are\"", "error"⟩,
  ⟨RuleType.subjectVerbAgreement,
    svExec [str "cat", str "dog", str "bird", str "person", str "child",
      str "woman", str "man", str "caat", str "doog", str "brid"] (str "are"),
    "Subject-verb agreement error: singular subject requires \"is\"", "error"⟩,
  ⟨RuleType.subjectVerbAgreement,
    svExec [str "he", str "she", str "it"] (str "are"),
    "Subject-verb agreement error: singular pronoun requires \"is\"", "error"⟩,
  ⟨RuleType.subjectVerbAgreement,
    svExec [str "they", str "we", str "you"] (str "is"),
    "Subject-verb agreement error: plural pronoun requires \"are\"", "error"⟩,
  ⟨RuleType.subjectVerbAgreement, detNounAreExec,
    "Subject-verb agreement error: singular subject with determiner requires \"is\"",
    "error"⟩,
  ⟨RuleType.tenseConsistency,
    tenseExec
      [str "went", str "walked", str "ran", str "drove", str "ate", str "bought"]
      [str "go", str "walk", str "run", str "drive", str "eat", str "buy"],
    "Tense inconsistency: mixing past and present tense", "error"⟩,
  ⟨RuleType.tenseConsistency,
    tenseExec
      [str "go", str "walk", str "run", str "drive", str "eat", str "buy"]
      [str "went", str "walked", str "ran", str "drove", str "ate", str "bought"],
    "Tense inconsistency: mixing present and past tense", "error"⟩]

/-- The `COMMON_MISSPELLINGS` dictionary, in insertion (= iteration) order. -/
def COMMON_MISSPELLINGS : List (String × String) := [
  ("caat", "cat"), ("eror", "error"), ("runing", "running"),
  ("quikly", "quickly"), ("wrold", "world"), ("recieve", "receive"),
  ("seperate", "separate"), ("definately", "definitely")]

/-- One iteration of the `checkSpellingFast` word loop: first case-insensitive
occurrence of `w` in the line, accepted only when the neighbouring characters
(defaulting to a space at the line edges) are non-word characters. -/
def spellHit (line : List Char) (lineNumber : Nat) (w corr : String) :
    Option CheckResult :=
  let idx := jsIndexOf (lower line) (str w)
  if idx < 0 then none
  else
    let i := idx.toNat
    let beforeChar := if 0 < i then (charAt line (i - 1)).getD ' ' else ' '
    let afterChar :=
      if i + (str w).length < line.length then (charAt line (i + (str w).length)).getD ' '
      else ' '
    if !isWordChar beforeChar && !isWordChar afterChar then
      some ⟨RuleType.spelling,
        "Possible spelling error: \"" ++ w ++ "\" should be \"" ++ corr ++ "\"",
        lineNumber, i + 1, some corr⟩
    else none

/-- The `checkSpellingFast` loop with its early exit after two findings. -/
def spellGo (line : List Char) (n : Nat) :
    List (String × String) → List CheckResult → List CheckResult
  | [], acc => acc
  | (w, corr) :: rest, acc =>
    match spellHit line n w corr with
    | none => spellGo line n rest acc
    | some r =>
      let acc2 := acc ++ [r]
      if 2 ≤ acc2.length then acc2 else spellGo line n rest acc2

def checkSpellingFast (line : List Char) (n : Nat) : List CheckResult :=
  spellGo line n COMMON_MISSPELLINGS []

def mkRuleResult (r : GrammarRule) (n idx : Nat) : CheckResult :=
  ⟨r.type, r.message, n, idx + 1, none⟩

/-- The `checkGrammarRulesFast` loop with its early exit after three findings. -/
def rulesGo (line : List Char) (n : Nat) :
    List GrammarRule → List CheckResult → List CheckResult
  | [], acc => acc
  | r :: rest, acc =>
    match r.exec line with
    | none => rulesGo line n rest acc
    | some idx =>
      let acc2 := acc ++ [mkRuleResult r n idx]
      if 3 ≤ acc2.length then acc2 else rulesGo line n rest acc2

def checkGrammarRulesFast (line : List Char) (n : Nat) : List CheckResult :=
  rulesGo line n GRAMMAR_RULES []

def processLineFast (line : List Char) (n : Nat) : List CheckResult :=
  checkSpellingFast line n ++ checkGrammarRulesFast line n

/-- The line dispatch inside `checkGrammar` (fast single-line path, else split
on newline with 1-based line numbers). -/
def computeGrammar (sentence : List Char) : List CheckResult :=
  if !sentence.contains '\n' then processLineFast sentence 1
  else
    ((jsSplitChar '\n' sentence).enum).flatMap fun p =>
      processLineFast p.2 (p.1 + 1)

/-- The `processingCache`: a `Map` in insertion order.  The 5s TTL auto-expiry
is real time and is modelled as entries simply being absent. -/
abbrev GrammarCache := List (List Char × List CheckResult)

def CACHE_SIZE_LIMIT : Nat := 100

def getCachedResult (cache : GrammarCache) (text : List Char) :
    Option (List CheckResult) :=
  (cache.find? fun kv => decide (kv.1 = text)).map (·.2)

/-- `setCachedResult`: evict the oldest key when full, then append.  (Only
called on a cache miss, so `Map.set` appends.) -/
def setCachedResult (cache : GrammarCache) (text : List Char)
    (result : List CheckResult) : GrammarCache :=
  (if CACHE_SIZE_LIMIT ≤ cache.length then cache.drop 1 else cache) ++ [(text, result)]

/-- `checkGrammar` with the process-wide cache made an explicit argument:
returns the result list and the updated cache. -/
def checkGrammar (sentence : List Char) (cache : GrammarCache) :
    List CheckResult × GrammarCache :=
  if sentence.isEmpty || (jsTrim sentence).isEmpty then ([], cache)
  else
    let trimmed := jsTrim sentence
    match getCachedResult cache trimmed with
    | some cached => (cached, cache)
    | none =>
      let results := computeGrammar sentence
      (results, setCachedResult cache trimmed results)

/-- The cache-free denotation of `checkGrammar`: what a call computes when the
cache holds no (possibly aliased) entry for the input. -/
def checkGrammarPure (sentence : List Char) : List CheckResult :=
  if sentence.isEmpty || (jsTrim sentence).isEmpty then [] else computeGrammar sentence

/-- Run a sequence of `checkGrammar` calls, threading the cache. -/
def runChecks : List (List Char) → GrammarCache → GrammarCache
  | [], cache => cache
  | s :: rest, cache => runChecks rest (checkGrammar s cache).2

/-! ## Rule-table reconfiguration (`loadRulesFromConfig`, `loadStyleGuide`)

The JSON file and `JSON.parse` are external; the embedding starts from the
parsed configuration.  A JS field that is `undefined` is `none`; the falsy
check `!rule.type` also rejects the empty string.  The JS `RegExp` compiler is
modelled as a parameter `regexOk : pattern → flags → Bool`. -/

structure ConfigRule where
  type : Option String
  pattern : Option String
  flags : Option String
  message : Option String
  explanation : Option String
  severity : Option String
  replacement : Option String

/-- JS truthiness of an optional string field. -/
def truthy (o : Option String) : Bool :=
  match o with
  | none => false
  | some s => !(s == "")

def ruleTypeStrings : List String :=
  ["spelling", "punctuation", "subject-verb-agreement", "tense-consistency"]

/-- A grammar rule as produced by `loadRulesFromConfig` (the compiled `RegExp`
is kept as its source and flags). -/
structure LoadedGrammarRule where
  type : String
  pattern : String
  flags : String
  message : String
  severity : String
deriving DecidableEq, Repr

structure LoadedStyleRule where
  type : String
  pattern : String
  flags : String
  message : String
  explanation : String
  severity : String
  replacement : Option String
deriving DecidableEq, Repr

/-- The validation performed on one entry by `loadRulesFromConfig`, in source
order; returns the error message thrown for index `i`, if any. -/
def validateGrammarRule (regexOk : String → String → Bool) (i : Nat)
    (r : ConfigRule) : Option String :=
  if !(truthy r.type && truthy r.pattern && truthy r.message && truthy r.severity) then
    some ("Rule at index " ++ toString i ++ " is missing required properties")
  else if !(ruleTypeStrings.contains (r.type.getD "")) then
    some ("Invalid rule type: " ++ r.type.getD "" ++ " at index " ++ toString i)
  else if !(["error", "warning"].contains (r.severity.getD "")) then
    some ("Invalid severity: " ++ r.severity.getD "" ++ " at index " ++ toString i)
  else if !(regexOk (r.pattern.getD "") (r.flags.getD "")) then
    some ("Invalid regex pattern at index " ++ toString i ++ ": " ++ r.pattern.getD "")
  else none

def buildGrammarRule (r : ConfigRule) : LoadedGrammarRule :=
  ⟨r.type.getD "", r.pattern.getD "", r.flags.getD "", r.message.getD "",
    r.severity.getD ""⟩

/-- `config.rules.map(...)` with its in-loop throws: the first invalid entry
aborts the whole mapping. -/
def mapGrammarRules (regexOk : String → String → Bool) :
    Nat → List ConfigRule → Except String (List LoadedGrammarRule)
  | _, [] => .ok []
  | i, r :: rest =>
    match validateGrammarRule regexOk i r with
    | some e => .error e
    | none => (mapGrammarRules regexOk (i + 1) rest).map (buildGrammarRule r :: ·)

/-- `loadRulesFromConfig` from the parsed configuration onward: returns the new
active table and `none`, or the unchanged table and the thrown message.
`rules? = none` models a configuration whose `rules` is not an array. -/
def loadRulesFromConfig (regexOk : String → String → Bool)
    (rules? : Option (List ConfigRule)) (table : List LoadedGrammarRule) :
    List LoadedGrammarRule × Option String :=
  match rules? with
  | none =>
    (table, some "Failed to load grammar rules: Configuration must contain a \"rules\" array")
  | some rules =>
    match mapGrammarRules regexOk 0 rules with
    | .error e => (table, some ("Failed to load grammar rules: " ++ e))
    | .ok newRules => (newRules, none)

/-- The validation performed on one entry by `loadStyleGuide` (also requires
`explanation`; severities are info/warning/error; no type-enum check).  The
`new Function(...)` compilation of a replacement script is external JS
compilation and is subsumed in the same try/catch as the `RegExp` compile. -/
def validateStyleRule (regexOk : String → String → Bool) (i : Nat)
    (r : ConfigRule) : Option String :=
  if !(truthy r.type && truthy r.pattern && truthy r.message &&
      truthy r.explanation && truthy r.severity) then
    some ("Rule at index " ++ toString i ++ " is missing required properties")
  else if !(["info", "warning", "error"].contains (r.severity.getD "")) then
    some ("Invalid severity: " ++ r.severity.getD "" ++ " at index " ++ toString i)
  else if !(regexOk (r.pattern.getD "") (r.flags.getD "")) then
    some ("Invalid regex pattern at index " ++ toString i ++ ": " ++ r.pattern.getD "")
  else none

def buildStyleRule (r : ConfigRule) : LoadedStyleRule :=
  ⟨r.type.getD "", r.pattern.getD "", r.flags.getD "", r.message.getD "",
    r.explanation.getD "", r.severity.getD "", r.replacement⟩

def mapStyleRules (regexOk : String → String → Bool) :
    Nat → List ConfigRule → Except String (List LoadedStyleRule)
  | _, [] => .ok []
  | i, r :: rest =>
    match validateStyleRule regexOk i r with
    | some e => .error e
    | none => (mapStyleRules regexOk (i + 1) rest).map (buildStyleRule r :: ·)

/-- `loadStyleGuide` from the parsed configuration onward. -/
def loadStyleGuide (regexOk : String → String → Bool)
    (rules? : Option (List ConfigRule)) (table : List LoadedStyleRule) :
    List LoadedStyleRule × Option String :=
  match rules? with
  | none =>
    (table, some "Failed to load style guide: Configuration must contain a \"rules\" array")
  | some rules =>
    match mapStyleRules regexOk 0 rules with
    | .error e => (table, some ("Failed to load style guide: " ++ e))
    | .ok newRules => (newRules, none)

/-- An entry `loadRulesFromConfig` rejects (any of: missing/empty required
field, unknown rule type, unknown severity, uncompilable pattern). -/
def invalidGrammarEntry (regexOk : String → String → Bool) (r : ConfigRule) : Bool :=
  (validateGrammarRule regexOk 0 r).isSome

/-- An entry `loadStyleGuide` rejects. -/
def invalidStyleEntry (regexOk : String → String → Bool) (r : ConfigRule) : Bool :=
  (validateStyleRule regexOk 0 r).isSome

/-! ## POS tagger (`posTagger` in src/unnamed/part_004)

The `compromise` call `nlp(sentence).json()[0]?.terms` is an external adapter;
its result is modelled as an explicit `Option (List Term)` argument (`none`
models the adapter throwing, which takes the whitespace-split fallback). -/

structure Term where
  text : List Char
  tags : List String

/-- A token of `posTagger`.  The source's `end` field is named `stop` here
(`end` is a Lean keyword).  Offsets are absent on the fallback path. -/
structure PToken where
  text : List Char
  pos : String
  start : Option Int
  stop : Option Int
deriving DecidableEq, Repr

/-- `POS_TAG_MAP[tags[0]] || tags[0] || 'UNK'`: the map is the identity on its
keys, so the net effect keeps a non-empty first tag and falls back to `UNK`. -/
def posOfTags : List String → String
  | [] => "UNK"
  | t :: _ => if t == "" then "UNK" else t

/-- The offset-reconstructing `tokens.map(...)` loop, threading
`currentOffset`. -/
def posTaggerCore (sentence : List Char) : List Term → Int → List PToken
  | [], _ => []
  | t :: rest, currentOffset =>
    let startOffset := jsIndexOfFrom sentence t.text currentOffset
    let endOffset := startOffset + (t.text.length : Int)
    ⟨t.text, posOfTags t.tags, some startOffset, some endOffset⟩ ::
      posTaggerCore sentence rest endOffset

def posTagger (sentence : List Char) (adapterTerms : Option (List Term)) :
    List PToken :=
  if sentence.isEmpty || (jsTrim sentence).isEmpty then []
  else
    match adapterTerms with
    | some terms => posTaggerCore sentence terms 0
    | none =>
      ((jsSplitWS (jsTrim sentence)).filter (fun w => !w.isEmpty)).map fun w =>
        ⟨w, "UNK", none, none⟩

/-- The adapter contract the real `compromise` tokenizer satisfies: each term's
text occurs in the sentence at or after the end of the previous term (spec
§4.1: offsets are recomputed by sequential search). -/
def seqLocatable (sentence : List Char) : List Term → Int → Bool
  | [], _ => true
  | t :: rest, currentOffset =>
    let st := jsIndexOfFrom sentence t.text currentOffset
    decide (0 ≤ st) && seqLocatable sentence rest (st + (t.text.length : Int))

/-! ## Entity recognition (src/unnamed/part_004 and the nlpService duplicate) -/

structure EntitySpan where
  text : List Char
  type : String
  start : Int
  stop : Int
deriving DecidableEq, Repr

def dummyToken : PToken := ⟨[], "UNK", none, none⟩

def entityWordsOf (entityText : List Char) : List (List Char) :=
  jsSplitWS (lower entityText)

/-- `isTokenSequenceMatch`: all entity words match consecutive tokens
case-insensitively starting at `startIndex`. -/
def isTokenSequenceMatch (tokens : List PToken) (startIndex : Nat)
    (entityWords : List (List Char)) : Bool :=
  ((tokens.drop startIndex).take entityWords.length).map (fun t => lower t.text)
    == entityWords

/-- The multi-word scan `for i = 0; i <= tokens.length - entityLength`. -/
def firstSeqIdx (tokens : List PToken) (entityWords : List (List Char)) :
    Option Nat :=
  findFrom (fun i => isTokenSequenceMatch tokens i entityWords) 0
    (tokens.length + 1 - entityWords.length)

/-- `findMatchingTokensOptimized` (identical to `findEntityTokensOptimized` in
src/unnamed/part_000): single-word entities short-circuit to the first
case-insensitive token match; multi-word entities take the first consecutive
match. -/
def findMatchingTokensOptimized (entityText : List Char) (tokens : List PToken) :
    List PToken :=
  let entityWords := entityWordsOf entityText
  if entityWords.length == 1 then
    match tokens.find? (fun t => lower t.text == entityWords.headD []) with
    | some t => [t]
    | none => []
  else
    match firstSeqIdx tokens entityWords with
    | some i => (tokens.drop i).take entityWords.length
    | none => []

def calculateFallbackOffset (token : PToken) (tokens : List PToken) : Int :=
  jsIndexOf (joinSpace (tokens.map (·.text))) token.text

def getOptimizedOffset (token : PToken) (tokens : List PToken) : Int :=
  match token.start with
  | some st => st
  | none => calculateFallbackOffset token tokens

def buildEntityResult (entityText : List Char) (entityType : String)
    (entityTokens allTokens : List PToken) : EntitySpan :=
  let firstToken := entityTokens.headD dummyToken
  let lastToken := entityTokens.getLastD dummyToken
  let start := getOptimizedOffset firstToken allTokens
  let stop := getOptimizedOffset lastToken allTokens + (lastToken.text.length : Int)
  ⟨entityText, entityType, start, stop⟩

def calculateEntityOffsetsFromTokens (entityText : List Char)
    (tokens : List PToken) (entityType : String) : Option EntitySpan :=
  let entityTokens := findMatchingTokensOptimized entityText tokens
  if entityTokens.isEmpty then none
  else some (buildEntityResult entityText entityType entityTokens tokens)

/-- `addEntitiesOptimized`: push the resolvable entities, silently dropping
the rest. -/
def addEntitiesOptimized (entities : List (List Char)) (entityType : String)
    (tokens : List PToken) : List EntitySpan :=
  entities.filterMap fun e => calculateEntityOffsetsFromTokens e tokens entityType

/-- One dictionary word processed by `processCustomEntities`
(src/unnamed/part_004): `entity:<TYPE>:<value>` entries whose value matches a
token case-insensitively yield a span with the token's original casing and the
upper-cased type; a negative resolved offset is replaced by the `(-1, -1)`
sentinel. -/
def customEntityOf (tokens : List PToken) (w : String) : Option EntitySpan :=
  let parts := jsSplitChar ':' (str w)
  if 3 ≤ parts.length then
    let entityType := parts.getD 1 []
    let value := parts.getD 2 []
    match tokens.find? (fun t => lower t.text == lower value) with
    | some entityToken =>
      let start := getOptimizedOffset entityToken tokens
      some ⟨entityToken.text, String.mk (upper entityType),
        if 0 ≤ start then start else -1,
        if 0 ≤ start then start + (entityToken.text.length : Int) else -1⟩
    | none => none
  else none

def processCustomEntities (tokens : List PToken) (words : List String) :
    List EntitySpan :=
  ((words.filter fun w => prefixAt (str "entity:") (str w) 0).filterMap
    (customEntityOf tokens))

/-- A token of the nlpService `posTagger` (no offsets). -/
structure NToken where
  text : List Char
  pos : String
deriving DecidableEq, Repr

/-- The custom-entity block of the nlpService `entityRecognizer`
(src/src/suggestionService.ts, concatenated lines 757-782): it emits the
dictionary value's own casing, the declared type unchanged, and the constant
`(-1, -1)` offsets. -/
def nlpCustomEntityOf (tokens : List NToken) (w : String) : Option EntitySpan :=
  let parts := jsSplitChar ':' (str w)
  if 3 ≤ parts.length then
    let entityType := parts.getD 1 []
    let value := parts.getD 2 []
    match tokens.find? (fun t => lower t.text == lower value) with
    | some _ => some ⟨value, String.mk entityType, -1, -1⟩
    | none => none
  else none

def nlpCustomEntities (tokens : List NToken) (words : List String) :
    List EntitySpan :=
  ((words.filter fun w => prefixAt (str "entity:") (str w) 0).filterMap
    (nlpCustomEntityOf tokens))

/-! ## Context-aware synonym scoring (`TFIDFScoringStrategy`,
src/src/synonymContext.ts) -/

structure ContextMapping where
  name : String
  keywords : List String
  synonymScores : List (String × ℚ)

structure ContextScoringConfig where
  contextMappings : List ContextMapping
  defaultScore : ℚ

def DEFAULT_CONTEXT_CONFIG : ContextScoringConfig :=
  ⟨[⟨"financial", ["financial", "money", "loan", "credit", "bank"],
      [("institution", 9/10), ("lender", 9/10), ("financier", 9/10),
        ("shore", 1/10), ("riverside", 1/10)]⟩,
    ⟨"geographical", ["river", "water", "shore", "stream"],
      [("shore", 9/10), ("riverside", 9/10), ("embankment", 9/10),
        ("institution", 1/10), ("lender", 1/10)]⟩],
    1/2⟩

def jsToLowerStr (s : String) : String := String.mk (lower (str s))

def lookupSynonymScore (scores : List (String × ℚ)) (syn : String) : Option ℚ :=
  (scores.find? fun p => p.1 == syn).map (·.2)

/-- `calculateContextScore`: starting from the default, take the maximum with
each matching domain's override for the synonym. -/
def calculateContextScore (cfg : ContextScoringConfig) (synonym : String)
    (contextWords : List String) : ℚ :=
  cfg.contextMappings.foldl
    (fun bestScore mapping =>
      if contextWords.any (fun w => mapping.keywords.contains w) then
        match lookupSynonymScore mapping.synonymScores synonym with
        | some sc => max bestScore sc
        | none => bestScore
      else bestScore)
    cfg.defaultScore

structure ScoredSynonym where
  synonym : String
  score : ℚ
deriving DecidableEq, Repr

/-- `TFIDFScoringStrategy.scoreSynonyms`. -/
def scoreSynonyms (cfg : ContextScoringConfig) (word : String)
    (synonyms : List String) (context : List String) : List ScoredSynonym :=
  if synonyms.isEmpty then []
  else
    let contextWords := context.map jsToLowerStr
    sortDescBy (fun r => r.score)
      (synonyms.map fun syn =>
        ⟨syn,
          if !context.isEmpty then
            calculateContextScore cfg (jsToLowerStr syn) contextWords
          else cfg.defaultScore⟩)

/-! ## Tone detection (`detectTone`, src/unnamed/part_004) -/

structure ToneResult where
  tone : String
  score : ℚ
deriving DecidableEq, Repr

/-- One tone lexicon: signal words, and patterns given as their whole-phrase
alternatives (each source pattern is `/\b(alt1|...|altN)\b/i`: case-insensitive,
non-global, one capture group). -/
structure ToneLexicon where
  tone : String
  words : List (List Char)
  patterns : List (List (List Char))

def TONE_LEXICONS : List ToneLexicon := [
  ⟨"formal",
    [str "therefore", str "furthermore", str "consequently", str "moreover",
      str "nevertheless", str "however", str "accordingly", str "thus",
      str "hence", str "regarding", str "concerning", str "pursuant",
      str "notwithstanding"],
    [[str "it is", str "one must", str "it would be", str "it should be"],
      [str "in conclusion", str "in summary", str "to summarize"]]⟩,
  ⟨"informal",
    [str "gonna", str "wanna", str "gotta", str "yeah", str "nope", str "ok",
      str "okay", str "cool", str "awesome", str "totally", str "basically",
      str "like", str "you know", str "kinda", str "sorta"],
    [[str "don" ++ [apos] ++ str "t", str "won" ++ [apos] ++ str "t",
        str "can" ++ [apos] ++ str "t", str "isn" ++ [apos] ++ str "t",
        str "aren" ++ [apos] ++ str "t"],
      [str "what" ++ [apos] ++ str "s up", str "hey there", str "sup"]]⟩,
  ⟨"friendly",
    [str "thanks", str "please", str "appreciate", str "wonderful", str "great",
      str "amazing", str "fantastic", str "lovely", str "nice", str "kind",
      str "helpful", str "welcome", str "enjoy", str "hope"],
    [[str "thank you", str "thanks so much", str "really appreciate"],
      [str "hope you", str "wish you", str "looking forward"]]⟩,
  ⟨"professional",
    [str "deliver", str "implement", str "execute", str "optimize",
      str "analyze", str "strategic", str "efficient", str "effective",
      str "comprehensive", str "solution", str "objective", str "stakeholder",
      str "collaborate", str "synergy"],
    [[str "best practices", str "industry standard", str "key performance"],
      [str "moving forward", str "next steps", str "action items"]]⟩]

/-- JS `(text.match(pattern) || []).length` for a non-global pattern with one
capture group: `2` when it matches (full match plus the group), else `0`. -/
def patternMatchLen (text : List Char) (alts : List (List Char)) : Nat :=
  if alts.any (fun a => testWholeWordCI text a) then 2 else 0

/-- The per-tone raw score: word hits count once, pattern hits are weighted by
an extra factor 2 (`score += patternMatches * 2`). -/
def toneScore (text : List Char) (lex : ToneLexicon) : ℚ :=
  ((lex.words.foldl (fun acc w => acc + countWholeWordCI text w) 0 : Nat) : ℚ) +
    ((lex.patterns.foldl (fun acc p => acc + patternMatchLen text p) 0 : Nat) : ℚ) * 2

/-- Length-dependent normalization (`0.05 = 1/20`, `0.08 = 2/25`), clamped
to at most 1. -/
def normalizeToneScore (score : ℚ) (wordCount : Nat) : ℚ :=
  if wordCount ≤ 10 then min 1 (score / max 1 ((wordCount : ℚ) * (1/20)))
  else min 1 (score / max 1 ((wordCount : ℚ) * (2/25)))

def detectTone (text : List Char) : List ToneResult :=
  if text.isEmpty || (jsTrim text).isEmpty then []
  else
    let wordCount := (jsSplitWS text).length
    let detected := TONE_LEXICONS.filterMap fun lex =>
      let normalizedScore := normalizeToneScore (toneScore text lex) wordCount
      if 1/20 < normalizedScore then some ⟨lex.tone, max (1/10) normalizedScore⟩
      else none
    let sortedResults := sortDescBy (fun r => r.score) detected
    sortedResults ++ TONE_LEXICONS.filterMap fun lex =>
      if sortedResults.any (fun r => r.tone == lex.tone) then none
      else some ⟨lex.tone, 0⟩

/-! ## Style rule engine (`suggestStyle`, src/src/suggestionService.ts) -/

structure Suggestion where
  type : String
  message : String
  explanation : String
  severity : String
  line : Nat
  column : Nat
  suggestion : Option (List Char)
deriving DecidableEq, Repr

/-- All matches of a global regex: scan left to right, continuing after each
match (`regex.exec` in a `while` loop); yields `(match.index, match[0])`. -/
def globalScanAll (matchAt : List Char → Nat → Option Nat) (s : List Char) :
    List (Nat × List Char) :=
  go 0 (s.length + 1)
where
  go : Nat → Nat → List (Nat × List Char)
    | _, 0 => []
    | i, fuel + 1 =>
      match matchAt s i with
      | some len => (i, (s.drop i).take len) :: go (i + max len 1) fuel
      | none => go (i + 1) fuel

/-- Matcher for `/\b(alt1|...|altN)\b/gi` at one position: alternatives are
tried in order; returns the match length. -/
def phraseAltMatchAt (alts : List (List Char)) (s : List Char) (i : Nat) :
    Option Nat :=
  alts.findSome? fun a => if wholeWordCIAt s i a then some a.length else none

def phraseAltsExecAll (alts : List (List Char)) (s : List Char) :
    List (Nat × List Char) :=
  globalScanAll (phraseAltMatchAt alts) s

def passiveAuxAlts : List (List Char) :=
  [str "was", str "were", str "is", str "are", str "been", str "be"]

/-- Matcher for the passive-voice pattern `/\b(was|were|is|are|been|be)\s+\w+\s+by\b/gi`
at one position; the run-based pieces (`\s+`, `\w+`) are deterministic because
the character classes are disjoint. -/
def passiveMatchAt (s : List Char) (i : Nat) : Option Nat :=
  if !(boundaryBefore s i) then none
  else
    passiveAuxAlts.findSome? fun aux =>
      match wordCIThen s i aux with
      | none => none
      | some j =>
        match wsPlusThen s j with
        | none => none
        | some k =>
          match wordPlusThen s k with
          | none => none
          | some m =>
            match wsPlusThen s m with
            | none => none
            | some j2 =>
              match wordCIThen s j2 (str "by") with
              | none => none
              | some m2 => if boundaryAfter s m2 then some (m2 - i) else none

def passiveExecAll (s : List Char) : List (Nat × List Char) :=
  globalScanAll passiveMatchAt s

structure StyleRule where
  type : String
  /-- All matches of the rule's global regex on a line. -/
  execAll : List Char → List (Nat × List Char)
  message : String
  explanation : String
  severity : String
  /-- The `replacement` callback applied to the matched text, when present. -/
  replacement : Option (List Char → List Char)

/-- The `STYLE_RULES` table of the style service, in declaration order. -/
def STYLE_RULES : List StyleRule := [
  ⟨"passive-voice", passiveExecAll,
    "Consider using active voice instead of passive voice",
    "Active voice makes writing more direct and engaging than passive voice.",
    "warning",
    some fun text =>
      if jsIncludes text (str "was written by") then str "John wrote the report"
      else text⟩,
  ⟨"wordiness", phraseAltsExecAll [str "in order to"],
    "Replace wordy phrase with simpler alternative",
    "Concise writing is more effective.", "info",
    some fun _ => str "To"⟩,
  ⟨"wordiness", phraseAltsExecAll [str "due to the fact that"],
    "Replace wordy phrase with simpler alternative",
    "Concise writing is more effective.", "info",
    some fun _ => str "because"⟩,
  ⟨"vague-language",
    phraseAltsExecAll [str "thing", str "stuff", str "very", str "really",
      str "quite", str "pretty"],
    "Avoid vague language - consider using more specific words",
    "Specific words convey meaning more effectively.", "info", none⟩,
  ⟨"redundancy",
    phraseAltsExecAll [str "personally believe", str "in my opinion",
      str "I think that"],
    "Remove redundant phrase",
    "These phrases add no meaningful information.", "warning", none⟩,
  ⟨"redundancy",
    phraseAltsExecAll [str "absolutely essential", str "completely finished",
      str "totally unique"],
    "Remove redundant modifier",
    "These adjectives are already implied by the noun.", "warning", none⟩]

/-- Build one emitted suggestion from a rule and one of its matches.  The
"in order to" special path replaces throughout the whole line (`match.input`);
the built-in replacement callbacks never throw, so the catch branch that
re-derives an agent for `was written by` is unreachable. -/
def styleSuggestionOfMatch (rule : StyleRule) (line : List Char)
    (lineNumber : Nat) (m : Nat × List Char) : Suggestion :=
  let sugg : Option (List Char) :=
    match rule.replacement with
    | none => none
    | some rep =>
      if rule.type == "wordiness" && jsIncludes (lower m.2) (str "in order to") then
        some (replaceAllSubCI (str "in order to") (str "To") line)
      else some (rep m.2)
  ⟨rule.type, rule.message, rule.explanation, rule.severity, lineNumber,
    m.1 + 1, sugg⟩

def checkStyleRules (line : List Char) (lineNumber : Nat) : List Suggestion :=
  STYLE_RULES.flatMap fun rule =>
    (rule.execAll line).map (styleSuggestionOfMatch rule line lineNumber)

/-- `checkSentenceLength`: sentences split on `[.!?]+`, trimmed length over
100 flags a suggestion; the column comes from `line.indexOf(trimmed)`, which
is non-negative because the trimmed sentence is a substring of the line. -/
def checkSentenceLength (line : List Char) (lineNumber : Nat) : List Suggestion :=
  (jsSplitRuns isPunctChar line).filterMap fun sentence =>
    let trimmed := jsTrim sentence
    if 100 < trimmed.length then
      some ⟨"sentence-length",
        "Consider breaking this long sentence into shorter ones",
        "Shorter sentences improve readability and comprehension", "warning",
        lineNumber, (jsIndexOf line trimmed).toNat + 1, none⟩
    else none

def suggestStyle (text : List Char) : List Suggestion :=
  if text.isEmpty || (jsTrim text).isEmpty then []
  else
    ((jsSplitChar '\n' text).enum).flatMap fun p =>
      checkSentenceLength p.2 (p.1 + 1) ++ checkStyleRules p.2 (p.1 + 1)

/-! ## Rewrite engine (`rewriteSentence`, src/unnamed/part_004)

The enrichment result (`enhancedProcessText`, which consults the external NLP
adapter and synonym provider) is an explicit `tokens` argument.  The four
passive-voice regexes of `generateStructureRewrites` use lazy groups whose
semantics live in the JS engine; their combined first-match capture groups
`(subject, auxiliary, verb, agent)` are an explicit `passiveMatch` argument.
The 200ms wall-clock budget check is the explicit flag `budgetExceeded`. -/

structure EnhancedToken where
  text : List Char
  pos : String
  synonyms : List (List Char)

/-- `generateSynonymRewrite`: replace content words by their first
tone-filtered synonym, preserving the original leading capitalization. -/
def generateSynonymRewrite (tokens : List EnhancedToken) (tone : Option String) :
    List Char :=
  joinSpace (tokens.map fun token =>
    if ["Noun", "Verb", "Adjective", "Adverb"].contains token.pos &&
        !token.synonyms.isEmpty then
      let availableSynonyms :=
        if tone == some "formal" then token.synonyms.filter (fun s => 4 < s.length)
        else if tone == some "casual" then token.synonyms.filter (fun s => s.length ≤ 6)
        else token.synonyms
      match availableSynonyms with
      | [] => token.text
      | synonym :: _ =>
        match token.text with
        | [] => lower synonym
        | c :: _ => if upperChar c == c then capFirstLowerRest synonym else lower synonym
    else token.text)

/-- The fixed fallback synonym map, in insertion order. -/
def FALLBACK_SYNONYM_MAP : List (List Char × List (List Char)) := [
  (str "large", [str "big", str "huge", str "enormous", str "massive"]),
  (str "beautiful", [str "gorgeous", str "stunning", str "lovely", str "attractive"]),
  (str "building", [str "structure", str "edifice", str "construction", str "facility"]),
  (str "quick", [str "fast", str "rapid", str "swift", str "speedy"]),
  (str "excellent", [str "outstanding", str "superb", str "remarkable", str "exceptional"])]

/-- The tone filter inside `generateFallbackSynonymRewrite`. -/
def chooseToneSynonym (tone : Option String) (synonyms : List (List Char)) :
    List Char :=
  let syn := synonyms.headD []
  if tone == some "formal" && 1 < synonyms.length then
    match synonyms.filter (fun s => 4 < s.length) with
    | [] => syn
    | s :: _ => s
  else if tone == some "casual" && 1 < synonyms.length then
    match synonyms.filter (fun s => s.length ≤ 6) with
    | [] => syn
    | s :: _ => s
  else syn

def generateFallbackSynonymRewrite (sentence : List Char) (tone : Option String) :
    List Char :=
  FALLBACK_SYNONYM_MAP.foldl
    (fun result entry =>
      if testWholeWordCI result entry.1 then
        replaceWholeWordCIPreserve entry.1 (chooseToneSynonym tone entry.2) result
      else result)
    sentence

def IRREGULAR_VERBS : List (List Char × List Char) := [
  (str "written", str "wrote"), (str "taken", str "took"),
  (str "given", str "gave"), (str "spoken", str "spoke"),
  (str "done", str "did"), (str "made", str "made"),
  (str "built", str "built"), (str "created", str "created"),
  (str "developed", str "developed"), (str "implemented", str "implemented"),
  (str "designed", str "designed"), (str "established", str "established"),
  (str "conducted", str "conducted"), (str "performed", str "performed"),
  (str "executed", str "executed"), (str "completed", str "completed"),
  (str "analyzed", str "analyzed"), (str "handled", str "handled"),
  (str "managed", str "managed"), (str "controlled", str "controlled"),
  (str "directed", str "directed"), (str "supervised", str "supervised"),
  (str "operated", str "operated"), (str "maintained", str "maintained")]

def convertToActiveVerb (verb auxiliary : List Char) : List Char :=
  match IRREGULAR_VERBS.find? (fun p => p.1 == verb) with
  | some p => p.2
  | none =>
    if endsWithStr verb (str "ed") then
      if auxiliary == str "is" || auxiliary == str "are" then
        if endsWithStr verb (str "ied") then verb.take (verb.length - 3) ++ str "y"
        else if endsWithStr verb (str "pped") || endsWithStr verb (str "tted") ||
            endsWithStr verb (str "nned") then
          verb.take (verb.length - 3)
        else verb.take (verb.length - 2)
      else verb
    else verb

def WORDY_PATTERNS : List (List Char × List Char) := [
  (str "in order to", str "to"),
  (str "due to the fact that", str "because"),
  (str "for the reason that", str "because"),
  (str "in spite of the fact that", str "although"),
  (str "with regard to", str "about"),
  (str "give consideration to", str "consider"),
  (str "make a decision", str "decide"),
  (str "reach a conclusion", str "conclude")]

/-- `agent.trim().replace(/yesterday\.?$/, '')`. -/
def stripTrailingYesterday (s : List Char) : List Char :=
  if endsWithStr s (str "yesterday.") then s.take (s.length - 10)
  else if endsWithStr s (str "yesterday") then s.take (s.length - 9)
  else s

def CONTRACTIONS : List (List Char × List Char) := [
  (str "can" ++ [apos] ++ str "t", str "cannot"),
  (str "don" ++ [apos] ++ str "t", str "do not"),
  (str "won" ++ [apos] ++ str "t", str "will not"),
  (str "it" ++ [apos] ++ str "s", str "it is"),
  (str "we" ++ [apos] ++ str "re", str "we are"),
  (str "they" ++ [apos] ++ str "re", str "they are"),
  (str "isn" ++ [apos] ++ str "t", str "is not"),
  (str "aren" ++ [apos] ++ str "t", str "are not")]

def CASUAL_REPLACEMENTS : List (List Char × List Char) := [
  (str "requires immediate attention", str "needs quick action"),
  (str "careful analysis", str "a good look"),
  (str "comprehensive", str "thorough"),
  (str "utilize", str "use"),
  (str "demonstrate", str "show"),
  (str "facilitate", str "help"),
  (str "accomplish", str "do")]

def generateStructureRewrites (sentence : List Char) (tone : Option String)
    (passiveMatch : Option (List Char × List Char × List Char × List Char)) :
    List (List Char) :=
  let passiveRewrites : List (List Char) :=
    match passiveMatch with
    | some (subject, auxiliary, verb, agent) =>
      if !agent.isEmpty && !subject.isEmpty then
        let activeVerb := convertToActiveVerb verb auxiliary
        let cleanAgent := jsTrim (stripTrailingYesterday (jsTrim agent))
        let cleanSubject := lower (jsTrim subject)
        let timeReference :=
          if jsIncludes sentence (str "yesterday") then str " yesterday"
          else if jsIncludes sentence (str "today") then str " today"
          else if jsIncludes sentence (str "tomorrow") then str " tomorrow"
          else []
        let activeVersion :=
          capFirstKeepRest cleanAgent ++ [' '] ++ activeVerb ++ [' '] ++
            cleanSubject ++ timeReference ++ ['.']
        if !(activeVersion == sentence) && !(jsTrim activeVersion).isEmpty then
          [activeVersion]
        else []
      else []
    | none => []
  let wordyResult :=
    WORDY_PATTERNS.foldl
      (fun acc p =>
        let newVersion := replaceAllSubCI p.1 p.2 acc.1
        if !(newVersion == acc.1) then (newVersion, true) else acc)
      (sentence, false)
  let wordyRewrites :=
    if wordyResult.2 && !(wordyResult.1 == sentence) then [wordyResult.1] else []
  let toneRewrites : List (List Char) :=
    if tone == some "polite" then
      if !(jsIncludes sentence (str "please")) &&
          !(jsIncludes sentence (str "would")) &&
          !(jsIncludes sentence (str "could")) then
        [if prefixAt (str "send") (lower sentence) 0 then
            str "Could you please " ++ lower sentence
          else str "Would you please " ++ lower sentence]
      else []
    else if tone == some "formal" then
      let formalVersion :=
        CONTRACTIONS.foldl (fun acc p => replaceAllSub p.1 p.2 acc) sentence
      if !(formalVersion == sentence) then [formalVersion] else []
    else if tone == some "casual" then
      let casualVersion :=
        CASUAL_REPLACEMENTS.foldl (fun acc p => replaceAllSub p.1 p.2 acc) sentence
      if !(casualVersion == sentence) then [casualVersion] else []
    else []
  (passiveRewrites ++ wordyRewrites ++ toneRewrites).filter fun r =>
    !(r == sentence) && !(jsTrim r).isEmpty

def TRANSITIONS : List (List Char) :=
  [str "Additionally,", str "Furthermore,", str "Moreover,", str "In addition,"]

def generateVariationRewrite (sentence : List Char) (variation : Nat) : List Char :=
  if variation == 1 then
    TRANSITIONS.getD (variation % 4) [] ++ [' '] ++ lowerFirstKeepRest sentence
  else if variation == 2 then
    let modifiedSentence :=
      replaceWholeWordCS (str "jumps") (str "leaps")
        (replaceWholeWordCS (str "over") (str "across")
          (replaceWholeWordCS (str "and") (str "plus")
            (replaceWholeWordCS (str "the") (str "a")
              (replaceWholeWordCS (str "The") (str "A") sentence))))
    if !(modifiedSentence == sentence) then modifiedSentence
    else
      let words := jsSplitChar ' ' sentence
      if 3 < words.length then
        capFirstKeepRest
          (joinSpace (words.drop 1) ++ [' '] ++ lower (words.headD []))
      else sentence ++ str " (variant " ++ str (toString variation) ++ str ")"
  else sentence ++ str " (variant " ++ str (toString variation) ++ str ")"

/-- One iteration of the `while (rewrites.length < 3)` loop; every branch
pushes exactly one alternative. -/
def rewriteStep (sentence : List Char) (tone : Option String)
    (rewrites : List (List Char)) : List (List Char) :=
  if rewrites.length == 1 &&
      !(generateFallbackSynonymRewrite sentence tone == sentence) then
    rewrites ++ [generateFallbackSynonymRewrite sentence tone]
  else
    let variation := generateVariationRewrite sentence rewrites.length
    if !(jsTrim variation).isEmpty && !(variation == sentence) then
      rewrites ++ [variation]
    else
      let altSynonymRewrite := generateFallbackSynonymRewrite sentence tone
      if !(altSynonymRewrite == sentence) then rewrites ++ [altSynonymRewrite]
      else
        rewrites ++
          [sentence ++ str " (enhanced " ++ str (toString rewrites.length) ++ str ")"]

/-- The `while (rewrites.length < 3)` loop. -/
def ensureThree (sentence : List Char) (tone : Option String)
    (rewrites : List (List Char)) : List (List Char) :=
  if h : rewrites.length < 3 then
    ensureThree sentence tone (rewriteStep sentence tone rewrites)
  else rewrites
termination_by 3 - rewrites.length
decreasing_by
  have hlen : (rewriteStep sentence tone rewrites).length = rewrites.length + 1 := by
    unfold rewriteStep
    split
    · simp
    · simp only []
      split
      · simp
      · split <;> simp
  rw [hlen]
  omega

def rewriteSentence (budgetExceeded : Bool) (tokens : List EnhancedToken)
    (passiveMatch : Option (List Char × List Char × List Char × List Char))
    (sentence : List Char) (tone : Option String) : List (List Char) :=
  if sentence.isEmpty then [[]]
  else if (jsTrim sentence).isEmpty then [sentence]
  else
    let rewrites0 := [sentence]
    let synonymRewrite := generateSynonymRewrite tokens tone
    let rewrites1 :=
      if !(synonymRewrite == sentence) && !(jsTrim synonymRewrite).isEmpty then
        rewrites0 ++ [synonymRewrite]
      else rewrites0
    let fallbackRewrite := generateFallbackSynonymRewrite sentence tone
    let rewrites2 :=
      if !(fallbackRewrite == sentence) && !(jsTrim fallbackRewrite).isEmpty &&
          !(rewrites1.contains fallbackRewrite) then
        rewrites1 ++ [fallbackRewrite]
      else rewrites1
    let rewrites3 :=
      rewrites2 ++
        (generateStructureRewrites sentence tone passiveMatch).filter
          (fun r => !(jsTrim r).isEmpty)
    let rewrites4 := ensureThree sentence tone rewrites3
    if budgetExceeded then [sentence, sentence, sentence]
    else rewrites4.take 3

/-- The cache invariant behind determinism: every stored value is the fresh
computation for its key. -/
def CacheOK (cache : GrammarCache) : Prop :=
  ∀ kv ∈ cache, kv.2 = computeGrammar kv.1

/-- Spec-side reading of C8: the override scores for a candidate across the
domains whose trigger keywords contain some context word. -/
def matchingOverrides (cfg : ContextScoringConfig) (synonym : String)
    (contextWords : List String) : List ℚ :=
  cfg.contextMappings.filterMap fun mapping =>
    if contextWords.any (fun w => mapping.keywords.contains w) then
      lookupSynonymScore mapping.synonymScores synonym
    else none

/-! ## Verification lemmas -/

theorem findFrom_some {p : Nat → Bool} :
    ∀ {fuel i j : Nat}, findFrom p i fuel = some j →
      i ≤ j ∧ j < i + fuel ∧ p j = true ∧ ∀ k, i ≤ k → k < j → p k = false := by
  intro fuel
  induction fuel with
  | zero => intro i j h; simp [findFrom] at h
  | succ m ih =>
    intro i j h
    by_cases hp : p i
    · have hij : i = j := by simpa [findFrom, hp] using h
      subst hij
      exact ⟨le_refl _, by omega, hp, fun k hk1 hk2 => by omega⟩
    · have h' : findFrom p (i + 1) m = some j := by
        simpa [findFrom, hp] using h
      obtain ⟨h1, h2, h3, h4⟩ := ih h'
      refine ⟨by omega, by omega, h3, ?_⟩
      intro k hk1 hk2
      rcases Nat.eq_or_lt_of_le hk1 with rfl | hlt
      · simpa using hp
      · exact h4 k (by omega) hk2

theorem findFrom_none {p : Nat → Bool} :
    ∀ {fuel i : Nat}, findFrom p i fuel = none →
      ∀ k, i ≤ k → k < i + fuel → p k = false := by
  intro fuel
  induction fuel with
  | zero => intro i _ k hk1 hk2; omega
  | succ m ih =>
    intro i h k hk1 hk2
    by_cases hp : p i
    · simp [findFrom, hp] at h
    · have h' : findFrom p (i + 1) m = none := by simpa [findFrom, hp] using h
      rcases Nat.eq_or_lt_of_le hk1 with rfl | hlt
      · simpa using hp
      · exact ih h' k (by omega) (by omega)

theorem prefixAt_iff {pat s : List Char} {n : Nat} :
    prefixAt pat s n = true ↔ pat <+: s.drop n := by
  rw [prefixAt, beq_iff_eq, List.prefix_iff_eq_take, eq_comm]

theorem prefixAt_nonempty_bound {pat s : List Char} {n : Nat}
    (h : prefixAt pat s n = true) (hp : pat ≠ []) : n + pat.length ≤ s.length := by
  have hlen : pat.length ≤ (s.drop n).length := (prefixAt_iff.mp h).length_le
  have hpos : 0 < pat.length := List.length_pos.mpr hp
  simp only [List.length_drop] at hlen
  omega

theorem jsIndexOfFrom_spec {s pat : List Char} {c : Int} {n : Nat}
    (h : jsIndexOfFrom s pat c = (n : Int)) :
    min (max c 0).toNat s.length ≤ n ∧ n ≤ s.length ∧ prefixAt pat s n = true ∧
      ∀ k, min (max c 0).toNat s.length ≤ k → k < n → prefixAt pat s k = false := by
  have hdef : jsIndexOfFrom s pat c =
      (match findFrom (fun p => prefixAt pat s p) (min (max c 0).toNat s.length)
          (s.length + 1 - min (max c 0).toNat s.length) with
        | some p => (p : Int)
        | none => -1) := rfl
  rw [hdef] at h
  cases hf : findFrom (fun p => prefixAt pat s p) (min (max c 0).toNat s.length)
      (s.length + 1 - min (max c 0).toNat s.length) with
  | none =>
    rw [hf] at h
    have hcon : (-1 : Int) = (n : Int) := h
    omega
  | some p =>
    rw [hf] at h
    have hcast : ((p : Int)) = (n : Int) := h
    have hpn : p = n := by exact_mod_cast hcast
    subst hpn
    obtain ⟨h1, h2, h3, h4⟩ := findFrom_some hf
    have hstart : min (max c 0).toNat s.length ≤ s.length := min_le_right _ _
    exact ⟨h1, by omega, h3, fun k hk1 hk2 => h4 k hk1 hk2⟩

theorem jsIndexOfFrom_end_bound {s pat : List Char} {c : Int} {n : Nat}
    (h : jsIndexOfFrom s pat c = (n : Int)) : n + pat.length ≤ s.length := by
  obtain ⟨-, h2, h3, -⟩ := jsIndexOfFrom_spec h
  by_cases hp : pat = []
  · subst hp; simpa using h2
  · exact prefixAt_nonempty_bound h3 hp

theorem insertDescBy_perm {α : Type} (key : α → ℚ) (x : α) (l : List α) :
    List.Perm (insertDescBy key x l) (x :: l) := by
  induction l with
  | nil => simp [insertDescBy]
  | cons y ys ih =>
    by_cases h : key x ≤ key y
    · simp only [insertDescBy, if_pos h]
      exact (ih.cons y).trans (List.Perm.swap x y ys)
    · simp [insertDescBy, if_neg h]

theorem sortDescBy_perm {α : Type} (key : α → ℚ) (l : List α) :
    List.Perm (sortDescBy key l) l := by
  induction l with
  | nil => simp [sortDescBy]
  | cons x xs ih =>
    simpa [sortDescBy] using (insertDescBy_perm key x (sortDescBy key xs)).trans (ih.cons x)

theorem insertDescBy_sorted {α : Type} (key : α → ℚ) (x : α) (l : List α)
    (h : l.Pairwise (fun a b => key b ≤ key a)) :
    (insertDescBy key x l).Pairwise (fun a b => key b ≤ key a) := by
  induction l with
  | nil => simp [insertDescBy]
  | cons y ys ih =>
    rcases List.pairwise_cons.mp h with ⟨hy, hys⟩
    by_cases hxy : key x ≤ key y
    · simp only [insertDescBy, if_pos hxy]
      refine List.pairwise_cons.mpr ⟨?_, ih hys⟩
      intro z hz
      rcases List.mem_cons.mp ((insertDescBy_perm key x ys).mem_iff.mp hz) with rfl | hzm
      · exact hxy
      · exact hy z hzm
    · push_neg at hxy
      simp only [insertDescBy, if_neg (not_le.mpr hxy)]
      refine List.pairwise_cons.mpr ⟨?_, h⟩
      intro z hz
      rcases List.mem_cons.mp hz with rfl | hzm
      · exact le_of_lt hxy
      · exact le_trans (hy z hzm) (le_of_lt hxy)

theorem sortDescBy_sorted {α : Type} (key : α → ℚ) (l : List α) :
    (sortDescBy key l).Pairwise (fun a b => key b ≤ key a) := by
  induction l with
  | nil => simp [sortDescBy]
  | cons x xs ih => exact insertDescBy_sorted key x _ ih

/-! ### C5: per-line spelling and pattern-rule bounds -/

theorem spellGo_eq (line : List Char) (n : Nat) :
    ∀ (ws : List (String × String)) (acc : List CheckResult), acc.length < 2 →
      spellGo line n ws acc =
        acc ++ (ws.filterMap fun wc => spellHit line n wc.1 wc.2).take (2 - acc.length) := by
  intro ws
  induction ws with
  | nil => intro acc h; simp [spellGo]
  | cons wc rest ih =>
    intro acc h
    rcases wc with ⟨w, corr⟩
    cases hh : spellHit line n w corr with
    | none =>
      rw [spellGo, hh, ih acc h]
      simp [List.filterMap_cons, hh]
    | some r =>
      rw [spellGo, hh]
      simp only [List.filterMap_cons, hh]
      by_cases h2 : 2 ≤ (acc ++ [r]).length
      · rw [if_pos h2]
        have ha : acc.length = 1 := by
          simp only [List.length_append, List.length_cons, List.length_nil] at h2
          omega
        rw [ha]
        simp
      · rw [if_neg h2]
        have ha : acc.length = 0 := by
          simp only [List.length_append, List.length_cons, List.length_nil] at h2
          omega
        have hacc : acc = [] := List.length_eq_zero.mp ha
        subst hacc
        simp only [List.nil_append]
        rw [ih [r] (by simp)]
        simp

theorem rulesGo_eq (line : List Char) (n : Nat) :
    ∀ (rs : List GrammarRule) (acc : List CheckResult), acc.length < 3 →
      rulesGo line n rs acc =
        acc ++ (rs.filterMap fun r => (r.exec line).map (mkRuleResult r n)).take
          (3 - acc.length) := by
  intro rs
  induction rs with
  | nil => intro acc h; simp [rulesGo]
  | cons r rest ih =>
    intro acc h
    cases hh : r.exec line with
    | none =>
      rw [rulesGo, hh, ih acc h]
      simp [List.filterMap_cons, hh]
    | some idx =>
      rw [rulesGo, hh]
      simp only [List.filterMap_cons, hh, Option.map_some]
      by_cases h2 : 3 ≤ (acc ++ [mkRuleResult r n idx]).length
      · rw [if_pos h2]
        have ha : acc.length = 2 := by
          simp only [List.length_append, List.length_cons, List.length_nil] at h2
          omega
        rw [ha]
        simp
      · rw [if_neg h2]
        have hlt : (acc ++ [mkRuleResult r n idx]).length < 3 := by omega
        rw [ih _ hlt]
        have ha : acc.length + 1 < 3 := by
          simpa using hlt
        have : 3 - acc.length = (3 - (acc.length + 1)) + 1 := by omega
        simp [this]

/-- C5: within a line, the misspelling check is a case-insensitive substring
search with non-word boundary verification over the fixed table, reporting at
most 2 matches (the reported column being the 1-based position of the first
case-insensitive occurrence); the pattern-rule check tries the rules in
declaration order, reports only each rule's first match with column equal to
the 1-based match index, and reports at most 3 matches. -/
theorem checkGrammar_line_bounds (line : List Char) (n : Nat) :
    checkSpellingFast line n
        = (COMMON_MISSPELLINGS.filterMap fun wc => spellHit line n wc.1 wc.2).take 2
    ∧ (checkSpellingFast line n).length ≤ 2
    ∧ (∀ r ∈ checkSpellingFast line n, ∃ (w corr : String) (i : Nat),
        (w, corr) ∈ COMMON_MISSPELLINGS ∧
        jsIndexOf (lower line) (str w) = (i : Int) ∧
        (str w) <+: (lower line).drop i ∧
        (∀ k < i, ¬ ((str w) <+: (lower line).drop k)) ∧
        isWordChar (if 0 < i then (charAt line (i - 1)).getD ' ' else ' ') = false ∧
        isWordChar (if i + (str w).length < line.length then
          (charAt line (i + (str w).length)).getD ' ' else ' ') = false ∧
        r.type = RuleType.spelling ∧ r.column = i + 1 ∧ r.suggestion = some corr)
    ∧ checkGrammarRulesFast line n
        = (GRAMMAR_RULES.filterMap fun r => (r.exec line).map (mkRuleResult r n)).take 3
    ∧ (checkGrammarRulesFast line n).length ≤ 3
    ∧ (∀ res ∈ checkGrammarRulesFast line n, ∃ r idx,
        r ∈ GRAMMAR_RULES ∧ r.exec line = some idx ∧
        res = mkRuleResult r n idx ∧ res.column = idx + 1) := by
  have hs := spellGo_eq line n COMMON_MISSPELLINGS [] (by simp)
  have hr := rulesGo_eq line n GRAMMAR_RULES [] (by simp)
  refine ⟨by simpa [checkSpellingFast] using hs, ?_, ?_, by simpa [checkGrammarRulesFast] using hr, ?_, ?_⟩
  · rw [checkSpellingFast, hs]
    simp
  · intro r hrmem
    rw [checkSpellingFast, hs] at hrmem
    simp only [List.nil_append] at hrmem
    have hrmem2 := List.mem_of_mem_take hrmem
    obtain ⟨⟨w, corr⟩, hwc, hhit⟩ := List.mem_filterMap.mp hrmem2
    dsimp only at hhit
    unfold spellHit at hhit
    by_cases hneg : jsIndexOf (lower line) (str w) < 0
    · simp [hneg] at hhit
    · push_neg at hneg
      obtain ⟨m, hm⟩ := Int.eq_ofNat_of_zero_le hneg
      rw [if_neg (by omega)] at hhit
      obtain ⟨-, -, hpre, hmin⟩ := jsIndexOfFrom_spec hm
      simp only [hm, Int.toNat_ofNat] at hhit
      by_cases hbound : (!isWordChar (if 0 < m then (charAt line (m - 1)).getD ' ' else ' ') &&
          !isWordChar (if m + (str w).length < line.length then
            (charAt line (m + (str w).length)).getD ' ' else ' ')) = true
      · rw [if_pos hbound] at hhit
        obtain ⟨hb1, hb2⟩ := Bool.and_eq_true_iff.mp hbound
        have hrzero := (Option.some.inj hhit).symm
        subst hrzero
        refine ⟨w, corr, m, hwc, hm, prefixAt_iff.mp hpre, ?_, by simpa using hb1,
          by simpa using hb2, rfl, rfl, rfl⟩
        intro k hk
        have hk0 := hmin k (by omega) hk
        intro hcon
        rw [prefixAt_iff.mpr hcon] at hk0
        cases hk0
      · rw [if_neg hbound] at hhit
        cases hhit
  · rw [checkGrammarRulesFast, hr]
    simp
  · intro res hresmem
    rw [checkGrammarRulesFast, hr] at hresmem
    simp only [List.nil_append] at hresmem
    have hresmem2 := List.mem_of_mem_take hresmem
    obtain ⟨r, hrm, hmap⟩ := List.mem_filterMap.mp hresmem2
    obtain ⟨idx, hidx, hres⟩ := Option.map_eq_some'.mp hmap
    exact ⟨r, idx, hrm, hidx, hres.symm, by rw [← hres]; rfl⟩

/-- C5 witness: a concrete line exhibiting a spelling hit and a rule hit. -/
theorem checkGrammar_line_bounds_witness :
    (checkSpellingFast (str "the caat are runing") 1).length ≤ 2 ∧
    (∃ (w corr : String) (i : Nat), (w, corr) ∈ COMMON_MISSPELLINGS ∧
        jsIndexOf (lower (str "the caat are runing")) (str w) = (i : Int) ∧
        (str w) <+: (lower (str "the caat are runing")).drop i ∧
        (∀ k < i, ¬ ((str w) <+: (lower (str "the caat are runing")).drop k)) ∧
        isWordChar (if 0 < i then (charAt (str "the caat are runing") (i - 1)).getD ' ' else ' ') = false ∧
        isWordChar (if i + (str w).length < (str "the caat are runing").length then
          (charAt (str "the caat are runing") (i + (str w).length)).getD ' ' else ' ') = false ∧
        ((checkSpellingFast (str "the caat are runing") 1).headD
          ⟨RuleType.spelling, "", 0, 0, none⟩).type = RuleType.spelling ∧
        ((checkSpellingFast (str "the caat are runing") 1).headD
          ⟨RuleType.spelling, "", 0, 0, none⟩).column = i + 1 ∧
        ((checkSpellingFast (str "the caat are runing") 1).headD
          ⟨RuleType.spelling, "", 0, 0, none⟩).suggestion = some corr) ∧
    (checkGrammarRulesFast (str "the caat are runing") 1).length ≤ 3 := by
  obtain ⟨-, hlen2, hmem, -, hlen3, -⟩ :=
    checkGrammar_line_bounds (str "the caat are runing") 1
  refine ⟨hlen2, ?_, hlen3⟩
  exact hmem ((checkSpellingFast (str "the caat are runing") 1).headD
    ⟨RuleType.spelling, "", 0, 0, none⟩) (by decide)

/-! ### C4: determinism of checkGrammar / suggestStyle -/

theorem getCachedResult_ok {cache : GrammarCache} (h : CacheOK cache)
    {k : List Char} {v : List CheckResult}
    (hv : getCachedResult cache k = some v) : v = computeGrammar k := by
  unfold getCachedResult at hv
  obtain ⟨kv, hfind, hmap⟩ := Option.map_eq_some'.mp hv
  have hmem := List.mem_of_find?_eq_some hfind
  have hp := List.find?_some hfind
  have hk : kv.1 = k := of_decide_eq_true hp
  rw [← hmap, h kv hmem, hk]

theorem setCachedResult_ok {cache : GrammarCache} (h : CacheOK cache)
    {k : List Char} {v : List CheckResult} (hv : v = computeGrammar k) :
    CacheOK (setCachedResult cache k v) := by
  intro kv hkv
  unfold setCachedResult at hkv
  rcases List.mem_append.mp hkv with hin | hin
  · refine h kv ?_
    split at hin
    · exact List.mem_of_mem_drop hin
    · exact hin
  · have : kv = (k, v) := by simpa using hin
    rw [this, hv]

theorem checkGrammar_cacheOK (s : List Char) (hs : jsTrim s = s)
    {cache : GrammarCache} (h : CacheOK cache) :
    CacheOK (checkGrammar s cache).2 := by
  by_cases hdeg : (s.isEmpty || (jsTrim s).isEmpty) = true
  · simpa [checkGrammar, hdeg] using h
  · cases hc : getCachedResult cache (jsTrim s) with
    | some v => simpa [checkGrammar, hdeg, hc] using h
    | none =>
      simp only [checkGrammar, hdeg, hc, Bool.false_eq_true, if_false]
      exact setCachedResult_ok h (by rw [hs])

theorem checkGrammar_fst (s : List Char) (hs : jsTrim s = s)
    {cache : GrammarCache} (h : CacheOK cache) :
    (checkGrammar s cache).1 = checkGrammarPure s := by
  by_cases hdeg : (s.isEmpty || (jsTrim s).isEmpty) = true
  · simp [checkGrammar, checkGrammarPure, hdeg]
  · cases hc : getCachedResult cache (jsTrim s) with
    | some v =>
      have hv : v = computeGrammar (jsTrim s) := getCachedResult_ok h hc
      rw [hs] at hv
      simp [checkGrammar, checkGrammarPure, hdeg, hc, hv]
    | none => simp [checkGrammar, checkGrammarPure, hdeg, hc]

theorem runChecks_cacheOK :
    ∀ (hist : List (List Char)) (cache : GrammarCache),
      (∀ h ∈ hist, jsTrim h = h) → CacheOK cache → CacheOK (runChecks hist cache) := by
  intro hist
  induction hist with
  | nil => intro cache _ h; exact h
  | cons s rest ih =>
    intro cache hh h
    exact ih _ (fun t ht => hh t (List.mem_cons_of_mem s ht))
      (checkGrammar_cacheOK s (hh s (List.mem_cons_self s rest)) h)

/-- C4 (amended): `checkGrammar` is deterministic across call sequences whose
inputs all equal their own trimmed form (then every call returns the fresh
computation for its input, regardless of history); `suggestStyle` keeps no
state at all in the embedding, so its determinism is definitional.  In
general the cache key is the trimmed input while the computation runs on the
raw input, so inputs differing only in outer whitespace alias one cache entry
(see the counterexample). -/
theorem checkGrammar_trimFixed_deterministic (hist : List (List Char))
    (hh : ∀ h ∈ hist, jsTrim h = h) (s : List Char) (hs : jsTrim s = s) :
    (checkGrammar s (runChecks hist [])).1 = checkGrammarPure s
    ∧ ∀ t : List Char, suggestStyle t = suggestStyle t := by
  refine ⟨?_, fun _ => rfl⟩
  exact checkGrammar_fst s hs (runChecks_cacheOK hist [] hh (by intro kv h; cases h))

theorem checkGrammar_trimFixed_deterministic_witness :
    (checkGrammar (str "Hello world") (runChecks [str "Hello world"] [])).1
      = checkGrammarPure (str "Hello world") :=
  (checkGrammar_trimFixed_deterministic [str "Hello world"]
    (by intro h hm; simp at hm; rw [hm]; decide) (str "Hello world") (by decide)).1

/-- C4 counterexample: `checkGrammar(" Hello world")` returns `[]` on a fresh
cache but returns the cached result of `checkGrammar("Hello world")` (a
missing-period issue) when that call ran first — identical input, different
output depending on the call sequence, so `checkGrammar` is not deterministic
as claimed. -/
theorem checkGrammar_history_dependent :
    (checkGrammar (str " Hello world") []).1 ≠
      (checkGrammar (str " Hello world")
        ((checkGrammar (str "Hello world") []).2)).1 := by
  decide

/-! ### C3: atomic replace-or-reject reconfiguration -/

theorem validateGrammarRule_isNone_shift (regexOk : String → String → Bool)
    (i : Nat) (r : ConfigRule) :
    (validateGrammarRule regexOk i r = none) ↔ (validateGrammarRule regexOk 0 r = none) := by
  unfold validateGrammarRule
  split_ifs <;> simp

theorem validateStyleRule_isNone_shift (regexOk : String → String → Bool)
    (i : Nat) (r : ConfigRule) :
    (validateStyleRule regexOk i r = none) ↔ (validateStyleRule regexOk 0 r = none) := by
  unfold validateStyleRule
  split_ifs <;> simp

theorem validateGrammarRule_msg_contains {regexOk : String → String → Bool}
    {i : Nat} {r : ConfigRule} {e : String}
    (h : validateGrammarRule regexOk i r = some e) :
    ∃ p q, e = p ++ toString i ++ q := by
  unfold validateGrammarRule at h
  split_ifs at h <;> rw [Option.some.injEq] at h
  · exact ⟨"Rule at index ", " is missing required properties", by
      simp [← h, String.append_assoc]⟩
  · exact ⟨"Invalid rule type: " ++ r.type.getD "" ++ " at index ", "", by
      simp [← h, String.append_assoc]⟩
  · exact ⟨"Invalid severity: " ++ r.severity.getD "" ++ " at index ", "", by
      simp [← h, String.append_assoc]⟩
  · exact ⟨"Invalid regex pattern at index ", ": " ++ r.pattern.getD "", by
      simp [← h, String.append_assoc]⟩

theorem validateStyleRule_msg_contains {regexOk : String → String → Bool}
    {i : Nat} {r : ConfigRule} {e : String}
    (h : validateStyleRule regexOk i r = some e) :
    ∃ p q, e = p ++ toString i ++ q := by
  unfold validateStyleRule at h
  split_ifs at h <;> rw [Option.some.injEq] at h
  · exact ⟨"Rule at index ", " is missing required properties", by
      simp [← h, String.append_assoc]⟩
  · exact ⟨"Invalid severity: " ++ r.severity.getD "" ++ " at index ", "", by
      simp [← h, String.append_assoc]⟩
  · exact ⟨"Invalid regex pattern at index ", ": " ++ r.pattern.getD "", by
      simp [← h, String.append_assoc]⟩

theorem mapGrammarRules_first_invalid (regexOk : String → String → Bool) :
    ∀ (i : Nat) (rules : List ConfigRule) (base : Nat) (r : ConfigRule) (e : String),
      rules.get? i = some r →
      validateGrammarRule regexOk (base + i) r = some e →
      (∀ j rj, j < i → rules.get? j = some rj →
        validateGrammarRule regexOk 0 rj = none) →
      mapGrammarRules regexOk base rules = .error e := by
  intro i
  induction i with
  | zero =>
    intro rules base r e hget hbad _
    cases rules with
    | nil => cases hget
    | cons r0 rest =>
      have hr0 : r0 = r := by simpa using hget
      subst hr0
      simp only [mapGrammarRules]
      rw [show base + 0 = base from rfl] at hbad
      rw [hbad]
  | succ m ih =>
    intro rules base r e hget hbad hpre
    cases rules with
    | nil => cases hget
    | cons r0 rest =>
      have h0 : validateGrammarRule regexOk 0 r0 = none :=
        hpre 0 r0 (Nat.succ_pos m) (by simp)
      have h0b : validateGrammarRule regexOk base r0 = none :=
        (validateGrammarRule_isNone_shift regexOk base r0).mpr h0
      simp only [mapGrammarRules, h0b]
      have hrec : mapGrammarRules regexOk (base + 1) rest = .error e := by
        refine ih rest (base + 1) r e (by simpa using hget) ?_ ?_
        · rw [show base + 1 + m = base + (m + 1) by omega]
          exact hbad
        · intro j rj hj hgj
          exact hpre (j + 1) rj (by omega) (by simpa using hgj)
      rw [hrec]
      rfl

theorem mapStyleRules_first_invalid (regexOk : String → String → Bool) :
    ∀ (i : Nat) (rules : List ConfigRule) (base : Nat) (r : ConfigRule) (e : String),
      rules.get? i = some r →
      validateStyleRule regexOk (base + i) r = some e →
      (∀ j rj, j < i → rules.get? j = some rj →
        validateStyleRule regexOk 0 rj = none) →
      mapStyleRules regexOk base rules = .error e := by
  intro i
  induction i with
  | zero =>
    intro rules base r e hget hbad _
    cases rules with
    | nil => cases hget
    | cons r0 rest =>
      have hr0 : r0 = r := by simpa using hget
      subst hr0
      simp only [mapStyleRules]
      rw [show base + 0 = base from rfl] at hbad
      rw [hbad]
  | succ m ih =>
    intro rules base r e hget hbad hpre
    cases rules with
    | nil => cases hget
    | cons r0 rest =>
      have h0 : validateStyleRule regexOk 0 r0 = none :=
        hpre 0 r0 (Nat.succ_pos m) (by simp)
      have h0b : validateStyleRule regexOk base r0 = none :=
        (validateStyleRule_isNone_shift regexOk base r0).mpr h0
      simp only [mapStyleRules, h0b]
      have hrec : mapStyleRules regexOk (base + 1) rest = .error e := by
        refine ih rest (base + 1) r e (by simpa using hget) ?_ ?_
        · rw [show base + 1 + m = base + (m + 1) by omega]
          exact hbad
        · intro j rj hj hgj
          exact hpre (j + 1) rj (by omega) (by simpa using hgj)
      rw [hrec]
      rfl

/-- C3: a rule-table configuration whose first invalid entry (missing or empty
required field, unknown type/severity, or uncompilable pattern) sits at index
`i` makes `loadRulesFromConfig` (resp. `loadStyleGuide` at index `j`) throw a
message containing that index in decimal, and the previously active table is
returned unmodified — the new table is installed only after the whole
configuration validates. -/
theorem loadRules_atomic_reject (regexOkG regexOkS : String → String → Bool)
    (rulesG rulesS : List ConfigRule)
    (tableG : List LoadedGrammarRule) (tableS : List LoadedStyleRule)
    (i j : Nat) (ri rj : ConfigRule)
    (hgi : rulesG.get? i = some ri)
    (hbadi : invalidGrammarEntry regexOkG ri = true)
    (hprei : ∀ k rk, k < i → rulesG.get? k = some rk →
      invalidGrammarEntry regexOkG rk = false)
    (hgj : rulesS.get? j = some rj)
    (hbadj : invalidStyleEntry regexOkS rj = true)
    (hprej : ∀ k rk, k < j → rulesS.get? k = some rk →
      invalidStyleEntry regexOkS rk = false) :
    (∃ msg, loadRulesFromConfig regexOkG (some rulesG) tableG = (tableG, some msg)
      ∧ ∃ p q, msg = p ++ toString i ++ q)
    ∧ (∃ msg, loadStyleGuide regexOkS (some rulesS) tableS = (tableS, some msg)
      ∧ ∃ p q, msg = p ++ toString j ++ q) := by
  constructor
  · have hsome : (validateGrammarRule regexOkG i ri).isSome = true := by
      unfold invalidGrammarEntry at hbadi
      cases hv : validateGrammarRule regexOkG i ri with
      | some e => rfl
      | none =>
        rw [(validateGrammarRule_isNone_shift regexOkG i ri).mp hv] at hbadi
        simp at hbadi
    obtain ⟨e, he⟩ := Option.isSome_iff_exists.mp hsome
    have hmap : mapGrammarRules regexOkG 0 rulesG = .error e := by
      refine mapGrammarRules_first_invalid regexOkG i rulesG 0 ri e hgi
        (by simpa using he) ?_
      intro k rk hk hgk
      have := hprei k rk hk hgk
      unfold invalidGrammarEntry at this
      cases hv : validateGrammarRule regexOkG 0 rk with
      | none => rfl
      | some e2 => rw [hv] at this; simp at this
    refine ⟨"Failed to load grammar rules: " ++ e, ?_, ?_⟩
    · simp [loadRulesFromConfig, hmap]
    · obtain ⟨p, q, hpq⟩ := validateGrammarRule_msg_contains he
      exact ⟨"Failed to load grammar rules: " ++ p, q, by
        rw [hpq]; simp [String.append_assoc]⟩
  · have hsome : (validateStyleRule regexOkS j rj).isSome = true := by
      unfold invalidStyleEntry at hbadj
      cases hv : validateStyleRule regexOkS j rj with
      | some e => rfl
      | none =>
        rw [(validateStyleRule_isNone_shift regexOkS j rj).mp hv] at hbadj
        simp at hbadj
    obtain ⟨e, he⟩ := Option.isSome_iff_exists.mp hsome
    have hmap : mapStyleRules regexOkS 0 rulesS = .error e := by
      refine mapStyleRules_first_invalid regexOkS j rulesS 0 rj e hgj
        (by simpa using he) ?_
      intro k rk hk hgk
      have := hprej k rk hk hgk
      unfold invalidStyleEntry at this
      cases hv : validateStyleRule regexOkS 0 rk with
      | none => rfl
      | some e2 => rw [hv] at this; simp at this
    refine ⟨"Failed to load style guide: " ++ e, ?_, ?_⟩
    · simp [loadStyleGuide, hmap]
    · obtain ⟨p, q, hpq⟩ := validateStyleRule_msg_contains he
      exact ⟨"Failed to load style guide: " ++ p, q, by
        rw [hpq]; simp [String.append_assoc]⟩

/-- C3 witness: a grammar config whose index-1 entry lacks `message`, and a
style config whose index-0 entry has an unknown severity. -/
theorem loadRules_atomic_reject_witness :
    (∃ msg, loadRulesFromConfig (fun _ _ => true)
      (some [⟨some "spelling", some "x", none, some "m", none, some "error", none⟩,
        ⟨some "spelling", some "x", none, none, none, some "error", none⟩]) []
      = ([], some msg) ∧ ∃ p q, msg = p ++ toString 1 ++ q)
    ∧ (∃ msg, loadStyleGuide (fun _ _ => true)
      (some [⟨some "t", some "x", none, some "m", some "e", some "fatal", none⟩]) []
      = ([], some msg) ∧ ∃ p q, msg = p ++ toString 0 ++ q) :=
  loadRules_atomic_reject (fun _ _ => true) (fun _ _ => true)
    [⟨some "spelling", some "x", none, some "m", none, some "error", none⟩,
      ⟨some "spelling", some "x", none, none, none, some "error", none⟩]
    [⟨some "t", some "x", none, some "m", some "e", some "fatal", none⟩]
    [] [] 1 0
    ⟨some "spelling", some "x", none, none, none, some "error", none⟩
    ⟨some "t", some "x", none, some "m", some "e", some "fatal", none⟩
    (by rfl) (by decide)
    (by
      intro k rk hk hgk
      interval_cases k
      · simp at hgk
        rw [← hgk]
        decide)
    (by rfl) (by decide)
    (by intro k rk hk hgk; omega)

/-! ### C1: the rewriteSentence 3-alternatives contract -/

theorem rewriteStep_snoc (sentence : List Char) (tone : Option String)
    (rewrites : List (List Char)) :
    ∃ x, rewriteStep sentence tone rewrites = rewrites ++ [x] := by
  unfold rewriteStep
  split
  · exact ⟨_, rfl⟩
  · simp only []
    split
    · exact ⟨_, rfl⟩
    · split
      · exact ⟨_, rfl⟩
      · exact ⟨_, rfl⟩

theorem rewriteStep_len (sentence : List Char) (tone : Option String)
    (rewrites : List (List Char)) :
    (rewriteStep sentence tone rewrites).length = rewrites.length + 1 := by
  obtain ⟨x, hx⟩ := rewriteStep_snoc sentence tone rewrites
  simp [hx]

theorem ensureThree_spec (sentence : List Char) (tone : Option String) :
    ∀ (fuel : Nat) (rewrites : List (List Char)), 3 - rewrites.length ≤ fuel →
      (∃ ys, ensureThree sentence tone rewrites = rewrites ++ ys) ∧
        3 ≤ (ensureThree sentence tone rewrites).length := by
  intro fuel
  induction fuel with
  | zero =>
    intro rws h
    rw [ensureThree, dif_neg (by omega)]
    exact ⟨⟨[], by simp⟩, by omega⟩
  | succ m ih =>
    intro rws h
    by_cases hlt : rws.length < 3
    · rw [ensureThree, dif_pos hlt]
      obtain ⟨⟨ys, hys⟩, hlen⟩ :=
        ih (rewriteStep sentence tone rws) (by rw [rewriteStep_len]; omega)
      obtain ⟨x, hx⟩ := rewriteStep_snoc sentence tone rws
      refine ⟨⟨x :: ys, ?_⟩, hlen⟩
      rw [hys, hx]
      simp
    · rw [ensureThree, dif_neg hlt]
      exact ⟨⟨[], by simp⟩, by omega⟩

/-- C1: for non-empty, non-whitespace input the rewrite engine returns exactly
3 strings whose element 0 is the input verbatim (also on the budget-exceeded
degradation path); empty input short-circuits to `[""]` and whitespace-only
input to the one-element list holding the input. -/
theorem rewriteSentence_contract (budgetExceeded : Bool)
    (tokens : List EnhancedToken)
    (passiveMatch : Option (List Char × List Char × List Char × List Char))
    (tone : Option String) (s : List Char) :
    (s ≠ [] → jsTrim s ≠ [] →
      (rewriteSentence budgetExceeded tokens passiveMatch s tone).length = 3 ∧
      (rewriteSentence budgetExceeded tokens passiveMatch s tone).head? = some s)
    ∧ rewriteSentence budgetExceeded tokens passiveMatch [] tone = [[]]
    ∧ (s ≠ [] → jsTrim s = [] →
        rewriteSentence budgetExceeded tokens passiveMatch s tone = [s]) := by
  refine ⟨?_, by simp [rewriteSentence], ?_⟩
  · intro h1 h2
    have he : s.isEmpty = false := by simpa using h1
    have ht : (jsTrim s).isEmpty = false := by simpa using h2
    rw [rewriteSentence]
    rw [if_neg (by simp [he]), if_neg (by simp [ht])]
    simp only []
    cases budgetExceeded with
    | true => simp
    | false =>
      simp only [Bool.false_eq_true, if_false]
      have hshape : ∃ tail,
          ((if !(generateSynonymRewrite tokens tone == s) &&
                !(jsTrim (generateSynonymRewrite tokens tone)).isEmpty then
              [s] ++ [generateSynonymRewrite tokens tone]
            else [s]) : List (List Char)) = s :: tail := by
        split
        · exact ⟨_, rfl⟩
        · exact ⟨[], rfl⟩
      obtain ⟨tail1, htail1⟩ := hshape
      rw [htail1]
      have hshape2 : ∃ tail2,
          ((if !(generateFallbackSynonymRewrite s tone == s) &&
                !(jsTrim (generateFallbackSynonymRewrite s tone)).isEmpty &&
                !((s :: tail1).contains (generateFallbackSynonymRewrite s tone)) then
              (s :: tail1) ++ [generateFallbackSynonymRewrite s tone]
            else s :: tail1) : List (List Char)) = s :: tail2 := by
        split
        · exact ⟨_, rfl⟩
        · exact ⟨_, rfl⟩
      obtain ⟨tail2, htail2⟩ := hshape2
      rw [htail2]
      obtain ⟨⟨ys, hys⟩, hlen⟩ := ensureThree_spec s tone 3
        ((s :: tail2) ++ (generateStructureRewrites s tone passiveMatch).filter
          (fun r => !(jsTrim r).isEmpty)) (by omega)
      rw [hys] at hlen ⊢
      simp only [List.cons_append, List.append_assoc] at hlen ⊢
      constructor
      · simp only [List.length_take]
        simp only [List.length_cons, List.length_append] at hlen ⊢
        omega
      · rfl
  · intro h1 h2
    have he : s.isEmpty = false := by simpa using h1
    rw [rewriteSentence, if_neg (by simp [he]), if_pos (by simp [h2])]

/-- C1 witness: a concrete sentence (no passive match, no enrichment tokens)
still yields exactly 3 alternatives headed by the original. -/
theorem rewriteSentence_contract_witness :
    (rewriteSentence false [] none (str "Hello there") none).length = 3 ∧
    (rewriteSentence false [] none (str "Hello there") none).head? =
      some (str "Hello there") :=
  (rewriteSentence_contract false [] none none (str "Hello there")).1
    (by decide) (by decide)

/-! ### C2: the detectTone contract -/

theorem perm_any {α : Type} {l1 l2 : List α} (h : l1.Perm l2) (f : α → Bool) :
    l1.any f = l2.any f := by
  apply Bool.eq_iff_iff.mpr
  simp only [List.any_eq_true]
  exact ⟨fun ⟨x, hx, hfx⟩ => ⟨x, h.mem_iff.mp hx, hfx⟩,
    fun ⟨x, hx, hfx⟩ => ⟨x, h.mem_iff.mpr hx, hfx⟩⟩

theorem length_filterMap_eq_filter_isSome {α β : Type} (g : α → Option β) :
    ∀ l : List α, (l.filterMap g).length = (l.filter fun a => (g a).isSome).length := by
  intro l
  induction l with
  | nil => simp
  | cons a rest ih =>
    cases hg : g a <;> simp [List.filterMap_cons, List.filter_cons, hg, ih]

theorem length_filterMap_guard {α β : Type} (p : α → Bool) (h : α → β) :
    ∀ l : List α,
      (l.filterMap fun a => if p a then none else some (h a)).length =
        (l.filter fun a => !p a).length := by
  intro l
  induction l with
  | nil => simp
  | cons a rest ih =>
    by_cases hp : p a <;> simp [List.filterMap_cons, List.filter_cons, hp, ih]

theorem length_filter_add_not {α : Type} (p : α → Bool) :
    ∀ l : List α, (l.filter p).length + (l.filter fun a => !p a).length = l.length := by
  intro l
  induction l with
  | nil => simp
  | cons a rest ih =>
    by_cases hp : p a <;> simp [List.filter_cons, hp] <;> omega

theorem pairwise_of_all_zero {l : List ToneResult} (h : ∀ r ∈ l, r.score = 0) :
    l.Pairwise (fun a b => b.score ≤ a.score) := by
  induction l with
  | nil => simp
  | cons a rest ih =>
    refine List.pairwise_cons.mpr
      ⟨?_, ih fun r hr => h r (List.mem_cons_of_mem a hr)⟩
    intro b hb
    rw [h b (List.mem_cons_of_mem a hb), h a (List.mem_cons_self a rest)]

theorem toneScore_nonneg (text : List Char) (lex : ToneLexicon) :
    0 ≤ toneScore text lex := by
  unfold toneScore
  positivity

theorem normalizeToneScore_bounds {score : ℚ} (hs : 0 ≤ score) (wc : Nat) :
    0 ≤ normalizeToneScore score wc ∧ normalizeToneScore score wc ≤ 1 := by
  unfold normalizeToneScore
  have h1 : (0 : ℚ) < max 1 ((wc : ℚ) * (1/20)) := lt_of_lt_of_le one_pos (le_max_left _ _)
  have h2 : (0 : ℚ) < max 1 ((wc : ℚ) * (2/25)) := lt_of_lt_of_le one_pos (le_max_left _ _)
  split_ifs
  · exact ⟨le_min (by norm_num) (div_nonneg hs (le_of_lt h1)), min_le_left _ _⟩
  · exact ⟨le_min (by norm_num) (div_nonneg hs (le_of_lt h2)), min_le_left _ _⟩

/-- C2 counterexample: for the empty input string, `detectTone` returns the
empty list, not one entry per tone. -/
theorem detectTone_empty_counterexample :
    detectTone (str "") = [] ∧ (detectTone (str "")).length ≠ 4 := by
  constructor <;> decide

/-- C2 (amended): for non-empty, non-whitespace input, `detectTone` returns
exactly 4 entries with scores in `[0, 1]`, sorted descending, one entry per
defined tone (tones with no signal, or signal at most the 0.05 threshold, get
score 0).  Empty or whitespace-only input instead short-circuits to `[]`
(see the counterexample). -/
theorem detectTone_contract (text : List Char) (h1 : text.isEmpty = false)
    (h2 : (jsTrim text).isEmpty = false) :
    (detectTone text).length = 4 ∧
    (∀ r ∈ detectTone text, 0 ≤ r.score ∧ r.score ≤ 1) ∧
    (detectTone text).Pairwise (fun a b => b.score ≤ a.score) ∧
    (∀ lex ∈ TONE_LEXICONS, ∃ r ∈ detectTone text, r.tone = lex.tone) ∧
    (∀ lex ∈ TONE_LEXICONS,
      normalizeToneScore (toneScore text lex) (jsSplitWS text).length ≤ 1/20 →
      ∀ r ∈ detectTone text, r.tone = lex.tone → r.score = 0) := by
  set wc := (jsSplitWS text).length with hwc
  set f : ToneLexicon → Option ToneResult := fun lex =>
    if 1/20 < normalizeToneScore (toneScore text lex) wc then
      some ⟨lex.tone, max (1/10) (normalizeToneScore (toneScore text lex) wc)⟩
    else none with hf
  have f_spec : ∀ lex r, f lex = some r →
      r.tone = lex.tone ∧ 1/10 ≤ r.score ∧ r.score ≤ 1 := by
    intro lex r hr
    rw [hf] at hr
    simp only at hr
    split_ifs at hr
    rcases Option.some.inj hr with rfl
    refine ⟨rfl, le_max_left _ _, ?_⟩
    have hb := (normalizeToneScore_bounds (toneScore_nonneg text lex) wc).2
    exact max_le (by norm_num) hb
  set D := TONE_LEXICONS.filterMap f with hD
  set S := sortDescBy (fun r => r.score) D with hS
  have hperm : S.Perm D := sortDescBy_perm _ _
  have hout : detectTone text = S ++ TONE_LEXICONS.filterMap (fun lex =>
      if S.any (fun r => r.tone == lex.tone) then none
      else some ⟨lex.tone, 0⟩) := by
    rw [detectTone, if_neg (by simp [h1, h2])]
  have hM : TONE_LEXICONS.filterMap (fun lex =>
        if S.any (fun r => r.tone == lex.tone) then none
        else some ⟨lex.tone, 0⟩) =
      TONE_LEXICONS.filterMap (fun lex =>
        if D.any (fun r => r.tone == lex.tone) then none
        else some (⟨lex.tone, 0⟩ : ToneResult)) :=
    List.filterMap_congr fun a _ => by rw [perm_any hperm]
  have hPg : ∀ lex ∈ TONE_LEXICONS,
      (D.any fun r => r.tone == lex.tone) = (f lex).isSome := by
    intro lex hlex
    cases hflex : f lex with
    | some r =>
      have hrD : r ∈ D := by rw [hD]; exact List.mem_filterMap.mpr ⟨lex, hlex, hflex⟩
      have ht := (f_spec lex r hflex).1
      simp only [Option.isSome_some]
      exact List.any_eq_true.mpr ⟨r, hrD, by simp [ht]⟩
    | none =>
      simp only [Option.isSome_none]
      apply List.any_eq_false.mpr
      intro r hrD
      obtain ⟨lex2, hlex2, hflex2⟩ := List.mem_filterMap.mp (hD ▸ hrD)
      have ht2 := (f_spec lex2 r hflex2).1
      simp only [beq_eq_false_iff_ne, ne_eq]
      intro hteq
      have hlexeq : lex2 = lex := by
        have hnd : (TONE_LEXICONS.map fun lex => lex.tone).Nodup := by decide
        exact List.inj_on_of_nodup_map hnd hlex2 hlex (by rw [← ht2]; exact eq_of_beq hteq)
      rw [hlexeq] at hflex2
      rw [hflex2] at hflex
      cases hflex
  refine ⟨?_, ?_, ?_, ?_, ?_⟩
  · rw [hout, hM]
    rw [List.length_append, hperm.length_eq, hD,
      length_filterMap_eq_filter_isSome f TONE_LEXICONS,
      length_filterMap_guard (fun lex => D.any fun r => r.tone == lex.tone)
        (fun lex => (⟨lex.tone, 0⟩ : ToneResult)) TONE_LEXICONS]
    have hfil : (TONE_LEXICONS.filter fun lex =>
        !(D.any fun r => r.tone == lex.tone)).length =
        (TONE_LEXICONS.filter fun lex => !(f lex).isSome).length := by
      apply congrArg List.length
      apply List.filter_congr
      intro a ha
      rw [hPg a ha]
    rw [hfil]
    have hfil2 : (TONE_LEXICONS.filter fun lex => (f lex).isSome).length =
        (TONE_LEXICONS.filter fun lex => !(!(f lex).isSome)).length := by
      apply congrArg List.length
      apply List.filter_congr
      intro a _
      simp
    rw [hfil2]
    rw [Nat.add_comm]
    rw [length_filter_add_not (fun lex => !(f lex).isSome) TONE_LEXICONS]
    rfl
  · intro r hr
    rw [hout, hM] at hr
    rcases List.mem_append.mp hr with hrS | hrM
    · obtain ⟨lex, _, hflex⟩ := List.mem_filterMap.mp (hD ▸ hperm.mem_iff.mp hrS)
      obtain ⟨-, hlo, hhi⟩ := f_spec lex r hflex
      exact ⟨le_trans (by norm_num) hlo, hhi⟩
    · obtain ⟨lex, -, hglex⟩ := List.mem_filterMap.mp hrM
      split_ifs at hglex
      rcases Option.some.inj hglex with rfl
      norm_num
  · rw [hout, hM]
    apply (List.pairwise_append).mpr
    refine ⟨?_, ?_, ?_⟩
    · rw [hS]; exact sortDescBy_sorted _ _
    · apply pairwise_of_all_zero
      intro r hrM
      obtain ⟨lex, -, hglex⟩ := List.mem_filterMap.mp hrM
      split_ifs at hglex
      rcases Option.some.inj hglex with rfl
      rfl
    · intro a haS b hbM
      obtain ⟨lex, -, hglex⟩ := List.mem_filterMap.mp hbM
      split_ifs at hglex
      rcases Option.some.inj hglex with rfl
      obtain ⟨lex2, -, hflex2⟩ := List.mem_filterMap.mp (hD ▸ hperm.mem_iff.mp haS)
      obtain ⟨-, hlo, -⟩ := f_spec lex2 a hflex2
      simp only []
      exact le_trans (by norm_num) hlo
  · intro lex hlex
    by_cases hs : (f lex).isSome = true
    · obtain ⟨r, hflex⟩ := Option.isSome_iff_exists.mp hs
      have hrD : r ∈ D := by rw [hD]; exact List.mem_filterMap.mpr ⟨lex, hlex, hflex⟩
      refine ⟨r, ?_, (f_spec lex r hflex).1⟩
      rw [hout]
      exact List.mem_append.mpr (Or.inl (hperm.mem_iff.mpr hrD))
    · refine ⟨⟨lex.tone, 0⟩, ?_, rfl⟩
      rw [hout, hM]
      apply List.mem_append.mpr
      right
      apply List.mem_filterMap.mpr
      refine ⟨lex, hlex, ?_⟩
      rw [hPg lex hlex]
      have hfalse : (f lex).isSome = false := by simpa using hs
      rw [hfalse]
      simp
  · intro lex hlex hsub r hr htone
    rw [hout, hM] at hr
    rcases List.mem_append.mp hr with hrS | hrM
    · obtain ⟨lex2, hlex2, hflex2⟩ := List.mem_filterMap.mp (hD ▸ hperm.mem_iff.mp hrS)
      have ht2 := (f_spec lex2 r hflex2).1
      have hlexeq : lex2 = lex := by
        have hnd : (TONE_LEXICONS.map fun lx => lx.tone).Nodup := by decide
        exact List.inj_on_of_nodup_map hnd hlex2 hlex (by rw [← ht2, htone])
      rw [hf] at hflex2
      simp only at hflex2
      rw [hlexeq] at hflex2
      split_ifs at hflex2 with hgt
      exact absurd hgt (not_lt.mpr hsub)
    · obtain ⟨lex2, -, hglex⟩ := List.mem_filterMap.mp hrM
      split_ifs at hglex
      rcases Option.some.inj hglex with rfl
      rfl

/-- C2 witness: the concrete non-empty input "Thanks" has exactly 4 tone
entries, and the tone with no signal in it ("professional", the fourth
lexicon) is reported with score 0. -/
theorem detectTone_contract_witness :
    (detectTone (str "Thanks")).length = 4 ∧
    ∃ r ∈ detectTone (str "Thanks"), r.tone = "professional" ∧ r.score = 0 := by
  have h := detectTone_contract (str "Thanks") (by decide) (by decide)
  refine ⟨h.1, ?_⟩
  have hmem : TONE_LEXICONS.get ⟨3, by decide⟩ ∈ TONE_LEXICONS :=
    List.get_mem _ _ _
  have htonepro : (TONE_LEXICONS.get ⟨3, by decide⟩).tone = "professional" := by
    decide
  have hw : (TONE_LEXICONS.get ⟨3, by decide⟩).words.foldl
      (fun acc w => acc + countWholeWordCI (str "Thanks") w) 0 = 0 := by decide
  have hp : (TONE_LEXICONS.get ⟨3, by decide⟩).patterns.foldl
      (fun acc p => acc + patternMatchLen (str "Thanks") p) 0 = 0 := by decide
  have hwc : (jsSplitWS (str "Thanks")).length = 1 := by decide
  have hts : toneScore (str "Thanks") (TONE_LEXICONS.get ⟨3, by decide⟩) = 0 := by
    unfold toneScore
    rw [hw, hp]
    norm_num
  have hsub : normalizeToneScore
      (toneScore (str "Thanks") (TONE_LEXICONS.get ⟨3, by decide⟩))
      (jsSplitWS (str "Thanks")).length ≤ 1/20 := by
    rw [hts, hwc]
    unfold normalizeToneScore
    norm_num
  obtain ⟨r, hr, htone⟩ :=
    h.2.2.2.1 (TONE_LEXICONS.get ⟨3, by decide⟩) hmem
  have htone2 : r.tone = "professional" := by rw [htone, htonepro]
  exact ⟨r, hr, htone2,
    h.2.2.2.2 (TONE_LEXICONS.get ⟨3, by decide⟩) hmem hsub r hr htone⟩

/-! ### C8: the keyword-table scoring strategy -/

theorem calculateContextScore_eq_foldl (cfg : ContextScoringConfig)
    (synonym : String) (contextWords : List String) :
    calculateContextScore cfg synonym contextWords =
      (matchingOverrides cfg synonym contextWords).foldl max cfg.defaultScore := by
  unfold calculateContextScore matchingOverrides
  generalize cfg.contextMappings = ms
  generalize cfg.defaultScore = d
  induction ms generalizing d with
  | nil => rfl
  | cons m rest ih =>
    simp only [List.foldl_cons, List.filterMap_cons]
    by_cases hm : (contextWords.any fun w => m.keywords.contains w) = true
    · rw [if_pos hm, if_pos hm]
      cases hov : lookupSynonymScore m.synonymScores synonym with
      | some sc =>
        dsimp only
        rw [List.foldl_cons]
        exact ih (max d sc)
      | none =>
        dsimp only
        exact ih d
    · rw [if_neg hm, if_neg hm]
      exact ih d

theorem foldl_max_of_nil (d : ℚ) : ([] : List ℚ).foldl max d = d := rfl

/-- C8 counterexample: with the default configuration, candidate `shore` for
`bank` in a `money` context has matching-domain override `0.1`, yet the
returned score is the default `0.5` — the code takes the maximum of the
default and the overrides, so the claim "assigns the maximum override score"
is false. -/
theorem tfidf_counterexample :
    scoreSynonyms DEFAULT_CONTEXT_CONFIG "bank" ["shore"] ["money"] =
      [⟨"shore", 1/2⟩]
    ∧ matchingOverrides DEFAULT_CONTEXT_CONFIG "shore" ["money"] = [1/10]
    ∧ ((1 : ℚ)/2) ≠ 1/10 := by
  refine ⟨?_, ?_, by norm_num⟩
  · have hlower : jsToLowerStr "shore" = "shore" := by decide
    have hlctx : ["money"].map jsToLowerStr = ["money"] := by decide
    have hscore : calculateContextScore DEFAULT_CONTEXT_CONFIG "shore" ["money"] = 1/2 := by
      simp [calculateContextScore, DEFAULT_CONTEXT_CONFIG, lookupSynonymScore,
        List.find?]
      norm_num
    simp [scoreSynonyms, hlctx, hlower, hscore, sortDescBy, insertDescBy]
  · simp [matchingOverrides, DEFAULT_CONTEXT_CONFIG, lookupSynonymScore, List.find?]

/-- C8 (amended): each candidate's score is the maximum of the default score
0.5 and the override scores across all domains whose trigger keywords contain
some context word (so overrides below the default are ineffective); with no
context words every candidate gets the default; the returned list is ordered
descending by score and is a permutation of the scored candidates. -/
theorem tfidf_score_spec (cfg : ContextScoringConfig) (word : String)
    (synonyms context : List String) :
    (scoreSynonyms cfg word synonyms context).Pairwise
      (fun a b => b.score ≤ a.score)
    ∧ (scoreSynonyms cfg word synonyms context).Perm
        (synonyms.map fun syn =>
          (⟨syn,
            if context.isEmpty then cfg.defaultScore
            else (matchingOverrides cfg (jsToLowerStr syn)
                (context.map jsToLowerStr)).foldl max cfg.defaultScore⟩ :
            ScoredSynonym))
    ∧ (∀ syn, context.isEmpty = false →
        matchingOverrides cfg (jsToLowerStr syn) (context.map jsToLowerStr) = [] →
        calculateContextScore cfg (jsToLowerStr syn) (context.map jsToLowerStr) =
          cfg.defaultScore) := by
  refine ⟨?_, ?_, ?_⟩
  · unfold scoreSynonyms
    split
    · simp
    · exact sortDescBy_sorted _ _
  · unfold scoreSynonyms
    split
    · rename_i hempty
      rw [List.isEmpty_iff.mp hempty]
      simp
    · refine (sortDescBy_perm _ _).trans ?_
      apply List.Perm.of_eq
      apply List.map_congr_left
      intro syn _
      by_cases hctx : context.isEmpty
      · simp [hctx, List.isEmpty_iff.mp hctx]
      · have : context.isEmpty = false := by simpa using hctx
        simp [this, calculateContextScore_eq_foldl]
  · intro syn _ hmo
    rw [calculateContextScore_eq_foldl, hmo]
    rfl

/-- C8 witness: a candidate absent from every override table keeps the
default score even in a matching context. -/
theorem tfidf_score_spec_witness :
    calculateContextScore DEFAULT_CONTEXT_CONFIG (jsToLowerStr "xyz")
        (["money"].map jsToLowerStr) = DEFAULT_CONTEXT_CONFIG.defaultScore :=
  (tfidf_score_spec DEFAULT_CONTEXT_CONFIG "bank" ["xyz"] ["money"]).2.2 "xyz"
    (by rfl)
    (by decide)

/-! ### C6: entity-to-token resolution -/

theorem find?_min {α : Type} (p : α → Bool) :
    ∀ (l : List α) (a : α), l.find? p = some a →
      ∃ k, ∃ hk : k < l.length, l.get ⟨k, hk⟩ = a ∧ p a = true ∧
        ∀ j, ∀ hj : j < l.length, j < k → p (l.get ⟨j, hj⟩) = false := by
  intro l
  induction l with
  | nil => intro a h; cases h
  | cons x rest ih =>
    intro a h
    by_cases hp : p x
    · have hxa : x = a := by simpa [List.find?_cons, hp] using h
      subst hxa
      exact ⟨0, by simp, rfl, hp, fun j hj hj0 => by omega⟩
    · have h' : rest.find? p = some a := by simpa [List.find?_cons, hp] using h
      obtain ⟨k, hk, hget, hpa, hmin⟩ := ih a h'
      refine ⟨k + 1, by simpa using Nat.succ_lt_succ hk, by simpa using hget, hpa, ?_⟩
      intro j hj hjk
      cases j with
      | zero => simpa using hp
      | succ m =>
        have hm : m < rest.length := by simpa using hj
        simpa using hmin m hm (by omega)

/-- C6: single-word entities resolve to the first token whose text matches
case-insensitively; multi-word entities resolve to the token slice at the
earliest index where all words match consecutive tokens case-insensitively
(ties to the earliest position); entities with no matching token subsequence
yield the empty slice, and `calculateEntityOffsetsFromTokens` turns exactly
those into `none` — such entities are dropped silently by
`addEntitiesOptimized`. -/
theorem findMatchingTokens_spec (entityText : List Char) (tokens : List PToken)
    (entityType : String) :
    ((entityWordsOf entityText).length = 1 →
      (findMatchingTokensOptimized entityText tokens = [] ∧
        ∀ t ∈ tokens,
          (lower t.text == (entityWordsOf entityText).headD []) = false) ∨
      (∃ k, ∃ hk : k < tokens.length,
        findMatchingTokensOptimized entityText tokens = [tokens.get ⟨k, hk⟩] ∧
        (lower (tokens.get ⟨k, hk⟩).text ==
          (entityWordsOf entityText).headD []) = true ∧
        ∀ j, ∀ hj : j < tokens.length, j < k →
          (lower (tokens.get ⟨j, hj⟩).text ==
            (entityWordsOf entityText).headD []) = false))
    ∧ (2 ≤ (entityWordsOf entityText).length →
      (findMatchingTokensOptimized entityText tokens = [] ∧
        ∀ i, isTokenSequenceMatch tokens i (entityWordsOf entityText) = false) ∨
      (∃ i, findMatchingTokensOptimized entityText tokens =
          (tokens.drop i).take (entityWordsOf entityText).length ∧
        isTokenSequenceMatch tokens i (entityWordsOf entityText) = true ∧
        ∀ j < i, isTokenSequenceMatch tokens j (entityWordsOf entityText) = false))
    ∧ (calculateEntityOffsetsFromTokens entityText tokens entityType = none ↔
        findMatchingTokensOptimized entityText tokens = []) := by
  refine ⟨?_, ?_, ?_⟩
  · intro h1
    rw [findMatchingTokensOptimized, if_pos (by simp [h1])]
    cases hfind : tokens.find?
        (fun t => lower t.text == (entityWordsOf entityText).headD []) with
    | none =>
      left
      refine ⟨rfl, ?_⟩
      intro t ht
      simpa using List.find?_eq_none.mp hfind t ht
    | some tok =>
      right
      obtain ⟨k, hk, hget, hp, hmin⟩ := find?_min _ tokens tok hfind
      exact ⟨k, hk, by rw [hget], by rw [hget]; exact hp,
        fun j hj hjk => hmin j hj hjk⟩
  · intro h2
    rw [findMatchingTokensOptimized, if_neg (by simp; omega)]
    cases hseq : firstSeqIdx tokens (entityWordsOf entityText) with
    | none =>
      left
      refine ⟨rfl, ?_⟩
      intro i
      by_cases hin : i < tokens.length + 1 - (entityWordsOf entityText).length
      · exact findFrom_none hseq i (by omega) (by omega)
      · apply beq_eq_false_iff_ne.mpr
        intro hcon
        have hlen := congrArg List.length hcon
        simp only [List.length_map, List.length_take, List.length_drop] at hlen
        omega
    | some i =>
      right
      obtain ⟨-, -, hp, hmin⟩ := findFrom_some hseq
      exact ⟨i, rfl, hp, fun j hj => hmin j (by omega) hj⟩
  · rw [calculateEntityOffsetsFromTokens]
    constructor
    · intro h
      by_cases he : (findMatchingTokensOptimized entityText tokens).isEmpty
      · exact List.isEmpty_iff.mp he
      · rw [if_neg he] at h
        cases h
    · intro h
      rw [if_pos (by simp [h])]

/-- C6 witness: "Barack Obama" resolves against concrete tokens through the
multi-word branch of the specification. -/
theorem findMatchingTokens_spec_witness :
    (findMatchingTokensOptimized (str "Barack Obama")
        [⟨str "Barack", "Noun", some 0, some 6⟩,
          ⟨str "Obama", "Noun", some 7, some 12⟩,
          ⟨str "visited", "Verb", some 13, some 20⟩] = [] ∧
      ∀ i, isTokenSequenceMatch
        [⟨str "Barack", "Noun", some 0, some 6⟩,
          ⟨str "Obama", "Noun", some 7, some 12⟩,
          ⟨str "visited", "Verb", some 13, some 20⟩] i
        (entityWordsOf (str "Barack Obama")) = false) ∨
    (∃ i, findMatchingTokensOptimized (str "Barack Obama")
        [⟨str "Barack", "Noun", some 0, some 6⟩,
          ⟨str "Obama", "Noun", some 7, some 12⟩,
          ⟨str "visited", "Verb", some 13, some 20⟩] =
        (([⟨str "Barack", "Noun", some 0, some 6⟩,
          ⟨str "Obama", "Noun", some 7, some 12⟩,
          ⟨str "visited", "Verb", some 13, some 20⟩] : List PToken).drop i).take
          (entityWordsOf (str "Barack Obama")).length ∧
      isTokenSequenceMatch
        [⟨str "Barack", "Noun", some 0, some 6⟩,
          ⟨str "Obama", "Noun", some 7, some 12⟩,
          ⟨str "visited", "Verb", some 13, some 20⟩] i
        (entityWordsOf (str "Barack Obama")) = true ∧
      ∀ j < i, isTokenSequenceMatch
        [⟨str "Barack", "Noun", some 0, some 6⟩,
          ⟨str "Obama", "Noun", some 7, some 12⟩,
          ⟨str "visited", "Verb", some 13, some 20⟩] j
        (entityWordsOf (str "Barack Obama")) = false) :=
  (findMatchingTokens_spec (str "Barack Obama")
    [⟨str "Barack", "Noun", some 0, some 6⟩,
      ⟨str "Obama", "Noun", some 7, some 12⟩,
      ⟨str "visited", "Verb", some 13, some 20⟩] "Person").2.1 (by decide)

/-! ### C7: custom dictionary entities -/

/-- C7 counterexample: the nlpService entity recognizer emits the dictionary
value's own casing (not the token's), leaves the declared type unchanged (not
upper-cased), and always marks the span `(-1, -1)` even when the token
carries an offset — contradicting the claim for that recognizer. -/
theorem nlpCustomEntities_counterexample :
    nlpCustomEntities [⟨str "Paris", "Noun"⟩] ["entity:city:paris"] =
      [⟨str "paris", "city", -1, -1⟩]
    ∧ str "paris" ≠ str "Paris" ∧ ("city" : String) ≠ "CITY" := by
  refine ⟨by decide, by decide, by decide⟩

/-- C7 (amended, proved of the optimized recognizer in part_004): an
`entity:<TYPE>:<value>` dictionary entry whose value matches some token
case-insensitively yields an extra span carrying the matched token's original
casing and the declared type upper-cased; the span reuses the offset resolved
from the token sequence when that offset is non-negative and is otherwise
marked unresolved as `(-1, -1)`. -/
theorem processCustomEntities_spec (tokens : List PToken) (words : List String)
    (w : String) (hw : w ∈ words)
    (hpre : prefixAt (str "entity:") (str w) 0 = true)
    (hlen : 3 ≤ (jsSplitChar ':' (str w)).length)
    (tok : PToken)
    (hfind : tokens.find?
      (fun t => lower t.text == lower ((jsSplitChar ':' (str w)).getD 2 []))
      = some tok) :
    ∃ span ∈ processCustomEntities tokens words,
      span.text = tok.text ∧
      span.type = String.mk (upper ((jsSplitChar ':' (str w)).getD 1 [])) ∧
      ((0 ≤ getOptimizedOffset tok tokens ∧
          span.start = getOptimizedOffset tok tokens ∧
          span.stop = getOptimizedOffset tok tokens + tok.text.length) ∨
        (getOptimizedOffset tok tokens < 0 ∧ span.start = -1 ∧ span.stop = -1)) := by
  have hcustom : customEntityOf tokens w = some
      ⟨tok.text, String.mk (upper ((jsSplitChar ':' (str w)).getD 1 [])),
        if 0 ≤ getOptimizedOffset tok tokens then getOptimizedOffset tok tokens else -1,
        if 0 ≤ getOptimizedOffset tok tokens then
          getOptimizedOffset tok tokens + tok.text.length
        else -1⟩ := by
    simp only [customEntityOf]
    rw [if_pos hlen, hfind]
  refine ⟨⟨tok.text, String.mk (upper ((jsSplitChar ':' (str w)).getD 1 [])),
      if 0 ≤ getOptimizedOffset tok tokens then getOptimizedOffset tok tokens else -1,
      if 0 ≤ getOptimizedOffset tok tokens then
        getOptimizedOffset tok tokens + tok.text.length
      else -1⟩, ?_, rfl, rfl, ?_⟩
  · apply List.mem_filterMap.mpr
    exact ⟨w, List.mem_filter.mpr ⟨hw, hpre⟩, hcustom⟩
  · by_cases hpos : 0 ≤ getOptimizedOffset tok tokens
    · left
      exact ⟨hpos, by simp [hpos], by simp [hpos]⟩
    · right
      refine ⟨by omega, by simp [hpos], by simp [hpos]⟩

/-- C7 witness: `entity:city:paris` against a token "Paris" with offset 21. -/
theorem processCustomEntities_spec_witness :
    ∃ span ∈ processCustomEntities [⟨str "Paris", "Noun", some 21, some 26⟩]
        ["entity:city:paris"],
      span.text = str "Paris" ∧
      span.type = String.mk (upper ((jsSplitChar ':' (str "entity:city:paris")).getD 1 [])) ∧
      ((0 ≤ getOptimizedOffset ⟨str "Paris", "Noun", some 21, some 26⟩
            [⟨str "Paris", "Noun", some 21, some 26⟩] ∧
          span.start = getOptimizedOffset ⟨str "Paris", "Noun", some 21, some 26⟩
            [⟨str "Paris", "Noun", some 21, some 26⟩] ∧
          span.stop = getOptimizedOffset ⟨str "Paris", "Noun", some 21, some 26⟩
            [⟨str "Paris", "Noun", some 21, some 26⟩] + (str "Paris").length) ∨
        (getOptimizedOffset ⟨str "Paris", "Noun", some 21, some 26⟩
            [⟨str "Paris", "Noun", some 21, some 26⟩] < 0 ∧
          span.start = -1 ∧ span.stop = -1)) :=
  processCustomEntities_spec [⟨str "Paris", "Noun", some 21, some 26⟩]
    ["entity:city:paris"] "entity:city:paris" (by decide) (by decide) (by decide)
    ⟨str "Paris", "Noun", some 21, some 26⟩ (by decide)

/-! ### C9: posTagger offset bounds -/

theorem posTaggerCore_spec (sentence : List Char) :
    ∀ (terms : List Term) (c : Int), 0 ≤ c → c ≤ sentence.length →
      seqLocatable sentence terms c = true →
      (∀ tok ∈ posTaggerCore sentence terms c, ∃ st en : Int,
        tok.start = some st ∧ tok.stop = some en ∧
        c ≤ st ∧ 0 ≤ st ∧ st ≤ en ∧ en ≤ sentence.length)
      ∧ (posTaggerCore sentence terms c).Chain'
          (fun a b => ∃ x y : Int, a.stop = some x ∧ b.start = some y ∧ x ≤ y) := by
  intro terms
  induction terms with
  | nil =>
    intro c _ _ _
    constructor
    · intro tok h
      cases h
    · simp [posTaggerCore]
  | cons t rest ih =>
    intro c hc0 hclen hloc
    rw [seqLocatable, Bool.and_eq_true] at hloc
    obtain ⟨hst0, hrest⟩ := hloc
    have hst0' : 0 ≤ jsIndexOfFrom sentence t.text c := of_decide_eq_true hst0
    obtain ⟨n, hn⟩ := Int.eq_ofNat_of_zero_le hst0'
    obtain ⟨hmin, hle, -, -⟩ := jsIndexOfFrom_spec hn
    have hend := jsIndexOfFrom_end_bound hn
    have hcn : c ≤ (n : Int) := by
      have h1 : (max c 0).toNat = c.toNat := by omega
      have h2 : min (max c 0).toNat sentence.length = c.toNat := by
        rw [h1]
        omega
      rw [h2] at hmin
      omega
    have hen_le : (n : Int) + t.text.length ≤ sentence.length := by
      exact_mod_cast hend
    have hrec := ih (jsIndexOfFrom sentence t.text c + t.text.length)
      (by omega) (by rw [hn]; exact_mod_cast hend) hrest
    constructor
    · intro tok htok
      rcases List.mem_cons.mp htok with rfl | hmem
      · exact ⟨jsIndexOfFrom sentence t.text c,
          jsIndexOfFrom sentence t.text c + t.text.length, rfl, rfl,
          by rw [hn]; exact hcn, hst0', by omega, by rw [hn]; exact hen_le⟩
      · obtain ⟨st, en, h1, h2, h3, h4, h5, h6⟩ := hrec.1 tok hmem
        exact ⟨st, en, h1, h2, by omega, h4, h5, h6⟩
    · rw [posTaggerCore]
      apply List.chain'_cons'.mpr
      refine ⟨?_, hrec.2⟩
      intro y hy
      have hymem := List.mem_of_mem_head? hy
      obtain ⟨st, en, h1, h2, h3, -, -, -⟩ := hrec.1 y hymem
      exact ⟨jsIndexOfFrom sentence t.text c + t.text.length, st, rfl, h1, h3⟩

/-- C9: under the adapter contract that each term's text occurs in the
sentence at or after the end of the previous term (which the sequential-search
offset reconstruction relies on), every token produced by `posTagger` carries
offsets with `0 ≤ start ≤ end ≤ length sentence`, and offsets are
monotonically non-decreasing across the token sequence.  Fallback tokens
(adapter failure) carry no offsets, so the bounds hold vacuously there. -/
theorem posTagger_offsets (sentence : List Char) (terms : List Term)
    (hloc : seqLocatable sentence terms 0 = true) :
    (∀ tok ∈ posTagger sentence (some terms), ∃ st en : Int,
      tok.start = some st ∧ tok.stop = some en ∧
      0 ≤ st ∧ st ≤ en ∧ en ≤ sentence.length)
    ∧ (posTagger sentence (some terms)).Chain'
        (fun a b => ∃ x y : Int, a.stop = some x ∧ b.start = some y ∧ x ≤ y)
    ∧ (∀ tok ∈ posTagger sentence none, tok.start = none ∧ tok.stop = none) := by
  refine ⟨?_, ?_, ?_⟩
  · intro tok htok
    rw [posTagger] at htok
    split at htok
    · cases htok
    · obtain ⟨st, en, h1, h2, -, h4, h5, h6⟩ :=
        (posTaggerCore_spec sentence terms 0 (le_refl 0) (by simp) hloc).1 tok htok
      exact ⟨st, en, h1, h2, h4, h5, h6⟩
  · rw [posTagger]
    split
    · simp
    · exact (posTaggerCore_spec sentence terms 0 (le_refl 0) (by simp) hloc).2
  · intro tok htok
    rw [posTagger] at htok
    split at htok
    · cases htok
    · obtain ⟨w, -, hw⟩ := List.mem_map.mp htok
      rw [← hw]
      exact ⟨rfl, rfl⟩

/-- C9 witness: concrete adapter terms for "The cat sat"; the first emitted
token carries in-bounds offsets. -/
theorem posTagger_offsets_witness :
    seqLocatable (str "The cat sat")
      [⟨str "The", ["Determiner"]⟩, ⟨str "cat", ["Noun"]⟩,
        ⟨str "sat", ["Verb"]⟩] 0 = true ∧
    ∃ st en : Int,
      (⟨str "The", "Determiner", some 0, some 3⟩ : PToken).start = some st ∧
      (⟨str "The", "Determiner", some 0, some 3⟩ : PToken).stop = some en ∧
      0 ≤ st ∧ st ≤ en ∧ en ≤ (str "The cat sat").length :=
  ⟨by decide,
    (posTagger_offsets (str "The cat sat")
      [⟨str "The", ["Determiner"]⟩, ⟨str "cat", ["Noun"]⟩,
        ⟨str "sat", ["Verb"]⟩] (by decide)).1
      ⟨str "The", "Determiner", some 0, some 3⟩ (by decide)⟩

/-! ### C10: the passive-voice replacement literal -/

/-- C10: every match of the passive-voice style rule whose matched text
contains "was written by" gets the fixed literal replacement suggestion
"John wrote the report", whatever the sentence's actual subject and agent are
(the built-in replacement callback never throws, so the catch-path fallback
that would substitute the real agent is unreachable). -/
theorem passive_suggestion_literal (line : List Char) (lineNumber : Nat)
    (m : Nat × List Char) (hm : m ∈ passiveExecAll line)
    (hcontains : jsIncludes m.2 (str "was written by") = true) :
    (⟨"passive-voice", "Consider using active voice instead of passive voice",
      "Active voice makes writing more direct and engaging than passive voice.",
      "warning", lineNumber, m.1 + 1,
      some (str "John wrote the report")⟩ : Suggestion)
      ∈ checkStyleRules line lineNumber := by
  rw [checkStyleRules]
  apply List.mem_flatMap.mpr
  refine ⟨⟨"passive-voice", passiveExecAll,
    "Consider using active voice instead of passive voice",
    "Active voice makes writing more direct and engaging than passive voice.",
    "warning",
    some fun text =>
      if jsIncludes text (str "was written by") then str "John wrote the report"
      else text⟩, ?_, ?_⟩
  · rw [STYLE_RULES]
    exact List.mem_cons_self _ _
  · apply List.mem_map.mpr
    refine ⟨m, hm, ?_⟩
    rw [styleSuggestionOfMatch]
    simp only []
    rw [if_neg (by simp)]
    rw [if_pos hcontains]

/-- C10 witness: the spec scenario sentence. -/
theorem passive_suggestion_literal_witness :
    (⟨"passive-voice", "Consider using active voice instead of passive voice",
      "Active voice makes writing more direct and engaging than passive voice.",
      "warning", 1, 12, some (str "John wrote the report")⟩ : Suggestion)
      ∈ checkStyleRules (str "The report was written by John.") 1 :=
  passive_suggestion_literal (str "The report was written by John.") 1
    (11, str "was written by") (by decide) (by decide)

end OpenGrammer
